import Mathlib

/-!
Shallow embedding of the delpro-exporter core (metric generation engine,
historical replay orchestrator, OID cursor, record query semantics).

Modelling conventions:
* `time.Time` values are Unix milliseconds (`Int`); `t.Unix()` is `t / 1000`,
  `t.UnixMilli()` is `t` itself.
* Go `float64` metric values are modelled as exact rationals (`Rat`).
* The VictoriaMetrics registry (external collaborator) is modelled as three
  association lists (counters, gauges, histograms) keyed by the full metric
  name string `name\x7blabels\x7d`, exactly the keys the source builds via
  `MetricName`/`TeatMetricName`/`TeatsMetricName`.  The metric-name constants
  are kind-consistent in this program, so storing the kinds separately is
  observationally equivalent to the single-map store.
* A Go nil-pointer dereference (panic) is modelled as `Option.none`.
-/

set_option maxHeartbeats 1000000

abbrev TimeMs := Int

/-- The opening brace character, written via its code point. -/
def lbrace : Char := Char.ofNat 123

/-- The closing brace character, written via its code point. -/
def rbrace : Char := Char.ofNat 125

/-- Metric name constants from `internal/models/models.go`. -/
def MetricMilkSessions : String := "delpro_milk_sessions_total"

def MetricMilkYieldTotal : String := "delpro_milk_yield_liters_total"

def MetricLastMilkYield : String := "delpro_milk_last_yield_liters"

def MetricLastYieldTimestamp : String := "delpro_milk_last_yield_timestamp"

def MetricConductivity : String := "delpro_milk_conductivity_mScm"

def MetricSomaticCellTotal : String := "delpro_milk_somatic_cell_total"

def MetricLastSomaticCellTotal : String := "delpro_milk_last_somatic_cell"

def MetricLastSCCTimestamp : String := "delpro_milk_last_somatic_cell_timestamp"

def MetricMilkingDuration : String := "delpro_milking_duration_seconds"

def MetricLastMilkingDuration : String := "delpro_last_milking_duration_seconds"

def MetricLastDurationTimestamp : String := "delpro_last_milking_duration_timestamp"

def MetricIncomplete : String := "delpro_milking_incomplete_teat"

def MetricKickoff : String := "delpro_milking_kickoff_teat"

def MetricIncompleteTeats : String := "delpro_milking_incomplete_teats"

def MetricKickoffTeats : String := "delpro_milking_kickoff_teats"

def MetricDaysInLactation : String := "delpro_animal_days_in_lactation"

def MetricDeviceUtilization : String := "delpro_device_utilization_sessions_per_hour"

/-- Modelled from the spec: `models.DataFormatVersion` is referenced by
`CreateDeviceUtilizationMetrics` but its defining constant is not present in
`src/`; its concrete value only appears inside a device-utilization label and
is irrelevant to every claim. -/
def DataFormatVersion : String := "1"

/-- Teat positions, bitfield values 1, 2, 4, 8 (`models.go`). -/
inductive Teat
  | leftFront
  | rightFront
  | leftRear
  | rightRear
deriving DecidableEq

/-- Bitfield value of a teat position. -/
def Teat.val : Teat → Int
  | .leftFront => 1
  | .rightFront => 2
  | .leftRear => 4
  | .rightRear => 8

/-- String representation of a teat (`Teat.String` in the source). -/
def Teat.str : Teat → String
  | .leftFront => "AvG"
  | .rightFront => "AvD"
  | .leftRear => "ArG"
  | .rightRear => "ArD"

/-- The fixed evaluation order of `GetAffectedTeats`. -/
def allTeats : List Teat := [.leftFront, .rightFront, .leftRear, .rightRear]

/-- Decode a bitfield into the affected teat names (`models.GetAffectedTeats`). -/
def GetAffectedTeats (bitfield : Int) : List String :=
  (allTeats.filter (fun t => bitfield.land t.val != 0)).map Teat.str

/-- Comma-joined affected teat names, `"none"` for the empty set
(`models.GetAffectedTeatsString`). -/
def GetAffectedTeatsString (bitfield : Int) : String :=
  if (GetAffectedTeats bitfield).isEmpty then "none"
  else String.intercalate "," (GetAffectedTeats bitfield)

/-- One milking session record (`models.MilkingRecord`).  Pointer-typed
optional fields are `Option`. -/
structure MilkingRecord where
  OID : Int
  AnimalNumber : String
  AnimalName : String
  AnimalRegNo : String
  BreedName : String
  DeviceID : String
  DestinationName : String
  LactationNumber : Option Int
  DaysInLactation : Option Int
  Yield : Rat
  Conductivity : Option Int
  Duration : Option Int
  SomaticCellCount : Option Int
  Incomplete : Option Int
  Kickoff : Option Int
  BeginTime : TimeMs
  EndTime : TimeMs
deriving DecidableEq

/-- Formatted Prometheus label string (`MilkingRecord.LabelStr`). -/
def MilkingRecord.LabelStr (r : MilkingRecord) : String :=
  "animal_number=\"" ++ r.AnimalNumber ++ "\",animal_name=\"" ++ r.AnimalName ++
  "\",animal_reg_no=\"" ++ r.AnimalRegNo ++ "\",breed=\"" ++ r.BreedName ++
  "\",milk_device_id=\"" ++ r.DeviceID ++ "\",destination=\"" ++ r.DestinationName ++
  "\",lactation=\"" ++
  (match r.LactationNumber with
   | some n => toString n
   | none => "unknown") ++ "\""

/-- Full metric key `metric\x7blabels\x7d` as built by the `fmt.Sprintf`
patterns in `models.go`. -/
def mkKey (metric labels : String) : String := metric ++ "\x7b" ++ labels ++ "\x7d"

/-- Labels for teat-specific metrics (`MilkingRecord.TeatLabelStr`). -/
def MilkingRecord.TeatLabelStr (r : MilkingRecord) (teat : String) : String :=
  r.LabelStr ++ ",teat=\"" ++ teat ++ "\""

/-- Labels for concatenated-teats metrics (`MilkingRecord.TeatsLabelStr`). -/
def MilkingRecord.TeatsLabelStr (r : MilkingRecord) (teats : String) : String :=
  r.LabelStr ++ ",teats=\"" ++ teats ++ "\""

/-- Fully qualified metric name with labels (`MilkingRecord.MetricName`). -/
def MilkingRecord.MetricName (r : MilkingRecord) (metric : String) : String :=
  mkKey metric r.LabelStr

/-- Fully qualified teat metric name (`MilkingRecord.TeatMetricName`). -/
def MilkingRecord.TeatMetricName (r : MilkingRecord) (metric teat : String) : String :=
  mkKey metric (r.TeatLabelStr teat)

/-- Fully qualified concatenated-teats metric name
(`MilkingRecord.TeatsMetricName`). -/
def MilkingRecord.TeatsMetricName (r : MilkingRecord) (metric teats : String) : String :=
  mkKey metric (r.TeatsLabelStr teats)

/-- Go `t.Unix()` on a millisecond timestamp. -/
def unixSec (t : TimeMs) : Int := t / 1000

/-- Update-or-insert in an association list (first matching key wins, new keys
appended at the end). -/
def upd {α : Type} (l : List (String × α)) (k : String) (f : Option α → α) :
    List (String × α) :=
  match l with
  | [] => [(k, f none)]
  | (k', v) :: t => if k' = k then (k', f (some v)) :: t else (k', v) :: upd t k f

/-- First-match association-list lookup. -/
def alookup {α : Type} (l : List (String × α)) (k : String) : Option α :=
  match l with
  | [] => none
  | (k', v) :: t => if k' = k then some v else alookup t k

/-- The metrics registry: counters, gauges and histograms keyed by the full
metric name string.  A histogram is its running (count, sum). -/
structure MetricSet where
  counters : List (String × Nat)
  gauges : List (String × Rat)
  hists : List (String × (Nat × Rat))
deriving DecidableEq

/-- A fresh metric set (`metrics.NewSet()`). -/
def emptySet : MetricSet := ⟨[], [], []⟩

/-- `s.GetOrCreateCounter(k).Inc()`. -/
def counterInc (s : MetricSet) (k : String) : MetricSet :=
  { s with counters := upd s.counters k (fun o => o.getD 0 + 1) }

/-- `s.GetOrCreateGauge(k, nil).Set(v)`. -/
def gaugeSet (s : MetricSet) (k : String) (v : Rat) : MetricSet :=
  { s with gauges := upd s.gauges k (fun _ => v) }

/-- `s.GetOrCreateGauge(k, nil).Add(v)`. -/
def gaugeAdd (s : MetricSet) (k : String) (v : Rat) : MetricSet :=
  { s with gauges := upd s.gauges k (fun o => o.getD 0 + v) }

/-- `s.GetOrCreateGauge(k, nil).Inc()`. -/
def gaugeInc (s : MetricSet) (k : String) : MetricSet :=
  { s with gauges := upd s.gauges k (fun o => o.getD 0 + 1) }

/-- `s.GetOrCreateHistogram(k).Update(v)`: bump count, add to sum. -/
def histUpdate (s : MetricSet) (k : String) (v : Rat) : MetricSet :=
  { s with hists := upd s.hists k (fun o => ((o.getD (0, 0)).1 + 1, (o.getD (0, 0)).2 + v)) }

/-- Current counter value at a key (0 when the series does not exist). -/
def getCounterVal (s : MetricSet) (k : String) : Nat :=
  (alookup s.counters k).getD 0

/-- Current gauge value at a key (0 when the series does not exist). -/
def getGaugeVal (s : MetricSet) (k : String) : Rat :=
  (alookup s.gauges k).getD 0

/-- Textual rendering of a rational metric value (stand-in for Go float
formatting; no claim depends on the digits). -/
def ratStr (q : Rat) : String :=
  if q.den = 1 then toString q.num else toString q.num ++ "/" ++ toString q.den

/-- Split a full metric name at the first opening brace
(`metrics.splitMetricName`; the labels part keeps its braces). -/
def splitMetricName (s : String) : String × String :=
  (String.mk (s.data.takeWhile (fun c => c ≠ lbrace)),
   String.mk (s.data.dropWhile (fun c => c ≠ lbrace)))

/-- Serialization of a metric set (`Set.WritePrometheus` of the collaborator
library): one `key value` line per counter/gauge series; a histogram emits its
`_sum`/`_count` pair and is skipped while empty (the source comments on this
behaviour at the `InitializeCountersToZero` site). -/
def writePrometheus (s : MetricSet) : List String :=
  s.counters.map (fun p => p.1 ++ " " ++ toString p.2) ++
  s.gauges.map (fun p => p.1 ++ " " ++ ratStr p.2) ++
  (s.hists.map (fun p =>
    if p.2.1 = 0 then []
    else [(splitMetricName p.1).1 ++ "_sum" ++ (splitMetricName p.1).2 ++ " " ++ ratStr p.2.2,
          (splitMetricName p.1).1 ++ "_count" ++ (splitMetricName p.1).2 ++ " " ++
            toString p.2.1])).flatten

/-- Go `strings.TrimSpace(line) != ""`, i.e. the line has a non-whitespace
character. -/
def hasInk (line : String) : Bool := line.data.any (fun c => !c.isWhitespace)

/-- `TimestampWriter`: every complete non-blank line gets the writer's
timestamp (Unix milliseconds) appended. -/
def timestampLines (tsMs : Int) (lines : List String) : List String :=
  (lines.filter hasInk).map (fun l => l ++ " " ++ toString tsMs)

/-- The somatic-cell block of the per-record loop: guarded on
`r.SomaticCellCount != nil`. -/
def sccStep (s : MetricSet) (r : MilkingRecord) : MetricSet :=
  match r.SomaticCellCount with
  | some scc =>
    gaugeSet
      (gaugeSet (gaugeAdd s (r.MetricName MetricSomaticCellTotal) ((scc : Int) : Rat))
        (r.MetricName MetricLastSomaticCellTotal) ((scc : Int) : Rat))
      (r.MetricName MetricLastSCCTimestamp) ((unixSec r.EndTime : Int) : Rat)
  | none => s

/-- The days-in-lactation block: guarded on `r.DaysInLactation != nil`. -/
def dilStep (s : MetricSet) (r : MilkingRecord) : MetricSet :=
  match r.DaysInLactation with
  | some dil => gaugeSet s (r.MetricName MetricDaysInLactation) ((dil : Int) : Rat)
  | none => s

/-- Per-teat gauge increments for one bitfield (`for _, teat := range
models.GetAffectedTeats(...)`). -/
def teatGaugeIncs (s : MetricSet) (r : MilkingRecord) (metric : String) (bitfield : Int) :
    MetricSet :=
  (GetAffectedTeats bitfield).foldl (fun acc t => gaugeInc acc (r.TeatMetricName metric t)) s

/-- Concatenated-teats gauge increment, skipped for the `"none"` rendering. -/
def teatsGaugeInc (s : MetricSet) (r : MilkingRecord) (metric : String) (bitfield : Int) :
    MetricSet :=
  if GetAffectedTeatsString bitfield ≠ "none" then
    gaugeInc s (r.TeatsMetricName metric (GetAffectedTeatsString bitfield))
  else s

/-- Body of the per-record loop of `CreateMetricsFromRecords`, after the four
unconditional dereferences `*r.Conductivity`, `*r.Duration`, `*r.Incomplete`,
`*r.Kickoff` have produced `c`, `d`, `inc`, `kick`; the update sequence follows
the source line by line. -/
def applyRecordCore (s0 : MetricSet) (r : MilkingRecord) (c d inc kick : Int) : MetricSet :=
  let s := counterInc s0 (r.MetricName MetricMilkSessions)
  let s := gaugeSet s (r.MetricName MetricLastMilkYield) r.Yield
  let s := gaugeSet s (r.MetricName MetricLastYieldTimestamp) ((unixSec r.EndTime : Int) : Rat)
  let s := gaugeAdd s (r.MetricName MetricMilkYieldTotal) r.Yield
  let s := gaugeSet s (r.MetricName MetricConductivity) ((c : Int) : Rat)
  let s := histUpdate s (r.MetricName MetricMilkingDuration) ((d : Int) : Rat)
  let s := gaugeSet s (r.MetricName MetricLastMilkingDuration) ((d : Int) : Rat)
  let s := gaugeSet s (r.MetricName MetricLastDurationTimestamp) ((unixSec r.EndTime : Int) : Rat)
  let s := sccStep s r
  let s := dilStep s r
  let s := teatGaugeIncs s r MetricIncomplete inc
  let s := teatsGaugeInc s r MetricIncompleteTeats inc
  let s := teatGaugeIncs s r MetricKickoff kick
  let s := teatsGaugeInc s r MetricKickoffTeats kick
  s

/-- One iteration of the `CreateMetricsFromRecords` loop for a record; `none`
models a nil-pointer panic on one of the four unconditional dereferences. -/
def applyRecord (s : MetricSet) (r : MilkingRecord) : Option MetricSet :=
  match r.Conductivity, r.Duration, r.Incomplete, r.Kickoff with
  | some c, some d, some inc, some kick => some (applyRecordCore s r c d inc kick)
  | _, _, _, _ => none

/-- `metrics.CreateMetricsFromRecords`: apply each record in order to the set;
when a writer is present, serialize the whole set after each record through a
`TimestampWriter` stamped with that record's `EndTime`.  The returned list is
the full output stream. -/
def CreateMetricsFromRecords (s : MetricSet) (withWriter : Bool) :
    List MilkingRecord → Option (MetricSet × List String)
  | [] => some (s, [])
  | r :: rest =>
    match applyRecord s r with
    | none => none
    | some s' =>
      match CreateMetricsFromRecords s' withWriter rest with
      | none => none
      | some (sf, out) =>
        some (sf, (if withWriter then timestampLines r.EndTime (writePrometheus s') else []) ++ out)

/-- Whether a record can be processed without a nil-pointer panic. -/
def MilkingRecord.Valid (r : MilkingRecord) : Prop :=
  r.Conductivity.isSome ∧ r.Duration.isSome ∧ r.Incomplete.isSome ∧ r.Kickoff.isSome

instance (r : MilkingRecord) : Decidable r.Valid := by
  unfold MilkingRecord.Valid
  infer_instance

/-- Append a record to its registration-number group (`animalRecords[k] =
append(animalRecords[k], record)` in `WriteHistoricalMetrics`). -/
def addToGroup (acc : List (String × List MilkingRecord)) (r : MilkingRecord) :
    List (String × List MilkingRecord) :=
  match acc with
  | [] => [(r.AnimalRegNo, [r])]
  | (k, l) :: t =>
    if k = r.AnimalRegNo then (k, l ++ [r]) :: t else (k, l) :: addToGroup t r

/-- Group records by animal registration number, preserving record order
within each group. -/
def groupByRegNo (rs : List MilkingRecord) : List (String × List MilkingRecord) :=
  rs.foldl addToGroup []

/-- Process each group against its own fresh metric set and concatenate the
streams. -/
def writeGroups : List (String × List MilkingRecord) → Option (List String)
  | [] => some []
  | (_, l) :: t =>
    match CreateMetricsFromRecords emptySet true l with
    | none => none
    | some (_, out) =>
      match writeGroups t with
      | none => none
      | some rest => some (out ++ rest)

/-- `metrics.WriteHistoricalMetrics`: one fresh metric set per animal
registration number. -/
def WriteHistoricalMetrics (rs : List MilkingRecord) : Option (List String) :=
  writeGroups (groupByRegNo rs)

/-- Keep, per label key, the record with the earliest `EndTime`
(`if !exists || record.EndTime.Before(existing.EndTime)`). -/
def upsertEarlier (acc : List (String × MilkingRecord)) (r : MilkingRecord) :
    List (String × MilkingRecord) :=
  match acc with
  | [] => [(r.LabelStr, r)]
  | (k, e) :: t =>
    if k = r.LabelStr then
      (if r.EndTime < e.EndTime then (k, r) :: t else (k, e) :: t)
    else (k, e) :: upsertEarlier t r

/-- The `seenAnimals` map of `writeInitializationValues`: earliest record per
unique label key. -/
def seenAnimals (rs : List MilkingRecord) : List (String × MilkingRecord) :=
  rs.foldl upsertEarlier []

/-- `metrics.writeZeroHistogram`: a `_sum`/`_count` pair of zero lines. -/
def writeZeroHistogram (metricName : String) (tsMs : Int) : List String :=
  [(splitMetricName metricName).1 ++ "_sum" ++ (splitMetricName metricName).2 ++ " 0 " ++
     toString tsMs,
   (splitMetricName metricName).1 ++ "_count" ++ (splitMetricName metricName).2 ++ " 0 " ++
     toString tsMs]

/-- The five zero-valued initialization lines written for one animal's earliest record,
timestamped 10 minutes (600000 ms) before its `EndTime`. -/
def initLinesFor (r : MilkingRecord) : List String :=
  [r.MetricName MetricMilkSessions ++ " 0 " ++ toString (r.EndTime - 600000),
   r.MetricName MetricMilkYieldTotal ++ " 0 " ++ toString (r.EndTime - 600000),
   r.MetricName MetricSomaticCellTotal ++ " 0 " ++ toString (r.EndTime - 600000)] ++
  writeZeroHistogram (r.MetricName MetricMilkingDuration) (r.EndTime - 600000)

/-- `metrics.writeInitializationValues`. -/
def writeInitializationValues (rs : List MilkingRecord) : List String :=
  if rs.isEmpty then [] else ((seenAnimals rs).map (fun p => initLinesFor p.2)).flatten

/-- `metrics.WriteHistoricalMetricsWithInit`: initialization values first, then
the historical replay. -/
def WriteHistoricalMetricsWithInit (rs : List MilkingRecord) : Option (List String) :=
  match WriteHistoricalMetrics rs with
  | none => none
  | some out => some (writeInitializationValues rs ++ out)

/-- Highest OID in a batch (`for ... if record.OID > highestOID`). -/
def highestOIDOf (records : List MilkingRecord) : Int :=
  records.foldl (fun h r => if r.OID > h then r.OID else h) 0

/-- Exporter cursor/registry state: in-memory last OID, persisted file content
(`none` = file absent), and the default (live) metric set. -/
structure ExporterState where
  lastOID : Int
  savedOID : Option Int
  registry : MetricSet
deriving DecidableEq

/-- `exporter.saveLastOID`: persist the in-memory cursor. -/
def saveLastOID (st : ExporterState) : ExporterState :=
  { st with savedOID := some st.lastOID }

/-- `exporter.SetLastOID`: adopt and persist a new OID only when strictly
larger than the current one. -/
def SetLastOID (st : ExporterState) (newOID : Int) : ExporterState :=
  if newOID > st.lastOID then saveLastOID { st with lastOID := newOID } else st

/-- The record-processing part of `exporter.UpdateMetrics` (lines 57-89):
apply the freshly queried records to the live set, then advance and persist
the cursor when the batch is non-empty and raises the highest OID. -/
def UpdateMetricsRecords (records : List MilkingRecord) (st : ExporterState) :
    Option ExporterState :=
  match CreateMetricsFromRecords st.registry false records with
  | none => none
  | some (reg, _) =>
    if records.isEmpty then some { st with registry := reg }
    else if highestOIDOf records > st.lastOID then
      some (saveLastOID { st with registry := reg, lastOID := highestOIDOf records })
    else some { st with registry := reg }

/-- Label key of a device-utilization gauge
(`CreateDeviceUtilizationMetrics`). -/
def deviceUtilKey (deviceID : String) : String :=
  mkKey MetricDeviceUtilization
    ("milk_device_id=\"" ++ deviceID ++ "\",data_format_version=\"" ++ DataFormatVersion ++ "\"")

/-- `metrics.CreateDeviceUtilizationMetrics` over the queried utilization
map (modelled as a list of entries). -/
def applyDeviceUtil (util : List (String × Int)) (reg : MetricSet) : MetricSet :=
  util.foldl (fun acc p => gaugeSet acc (deviceUtilKey p.1) ((p.2 : Int) : Rat)) reg

/-- An event touching the exporter state: one live update cycle (with its
query results) or one `SetLastOID` call. -/
inductive ExOp
  | update (records : List MilkingRecord) (util : List (String × Int))
  | setOID (x : Int)

/-- Execute one event against the exporter state. -/
def exStep (st : ExporterState) : ExOp → Option ExporterState
  | .update records util =>
    match UpdateMetricsRecords records st with
    | none => none
    | some st' => some { st' with registry := applyDeviceUtil util st'.registry }
  | .setOID x => some (SetLastOID st x)

/-- Execute a sequence of events. -/
def runOps (st : ExporterState) : List ExOp → Option ExporterState
  | [] => some st
  | op :: t =>
    match exStep st op with
    | none => none
    | some st' => runOps st' t

/-- Insertion step of the OID sort. -/
def insertByOID (r : MilkingRecord) : List MilkingRecord → List MilkingRecord
  | [] => [r]
  | x :: t => if r.OID ≤ x.OID then r :: x :: t else x :: insertByOID r t

/-- `ORDER BY smy.OID`. -/
def sortByOID (l : List MilkingRecord) : List MilkingRecord :=
  l.foldr insertByOID []

/-- The WHERE clause of `GetMilkingRecordsWithOIDRange`: `EndTime >= @StartTime
AND EndTime < @EndTime AND OID > @StartOID`, plus `OID <= @EndOID` only when
`endOID > 0` (the nullability filters hold by construction of the model). -/
def oidRangePred (startT endT startOID endOID : Int) (r : MilkingRecord) : Bool :=
  decide (startT ≤ r.EndTime) && decide (r.EndTime < endT) && decide (startOID < r.OID) &&
  (if endOID > 0 then decide (r.OID ≤ endOID) else true)

/-- `database.GetMilkingRecordsWithOIDRange` over a pure table of rows. -/
def GetMilkingRecordsWithOIDRange (table : List MilkingRecord)
    (startT endT startOID endOID : Int) : List MilkingRecord :=
  sortByOID (table.filter (oidRangePred startT endT startOID endOID))

/-- Outcome of parsing a `start`/`end` query parameter: a successfully parsed
RFC3339 instant, a date-only value carried as its day-start instant in the
database timezone, or an unparseable string. -/
inductive TimeParam
  | rfc (t : TimeMs)
  | dateOnly (dayStart : TimeMs)
  | malformed

/-- Outcome of parsing a `start_oid`/`end_oid` query parameter. -/
inductive OidParam
  | valid (n : Int)
  | malformed

/-- Query parameters of a `/historical-metrics` request (`none` = absent). -/
structure HQuery where
  start : Option TimeParam
  endT : Option TimeParam
  startOid : Option OidParam
  endOid : Option OidParam

/-- `models.HistoricalLookbackHours` (30 days) in milliseconds. -/
def HistoricalLookbackMs : Int := 30 * 24 * 60 * 60 * 1000

/-- Resolution of the `start` query parameter: the default lookback when
absent, the parsed instant otherwise, `none` when `time.Parse` fails on both
accepted formats. -/
def resolveStart (now : TimeMs) : Option TimeParam → Option TimeMs
  | none => some (now - HistoricalLookbackMs)
  | some (.rfc t) => some t
  | some (.dateOnly d) => some d
  | some .malformed => none

/-- Resolution of the `end` query parameter: `now` when absent, the parsed
instant otherwise (date-only values mean end of day in the database timezone),
`none` when unparseable. -/
def resolveEnd (now : TimeMs) : Option TimeParam → Option TimeMs
  | none => some now
  | some (.rfc t) => some t
  | some (.dateOnly d) => some (d + 86399999)
  | some .malformed => none

/-- Resolution of an OID query parameter: 0 when absent, the parsed integer
otherwise, `none` when `strconv.ParseInt` fails. -/
def resolveOid : Option OidParam → Option Int
  | none => some 0
  | some (.valid n) => some n
  | some .malformed => none

/-- `exporter.parseTimeRangeWithLocation`: resolve both bounds of the window,
returning the source's error strings when a parameter is unparseable, and
reject `start > end` (`startTime.After(endTime)`). -/
def parseTimeRangeWithLocation (now : TimeMs) (q : HQuery) :
    Except String (TimeMs × TimeMs) :=
  match resolveStart now q.start with
  | none =>
    .error "invalid start time format, use RFC3339 (2006-01-02T15:04:05Z) or date format (2006-01-02)"
  | some startTime =>
    match resolveEnd now q.endT with
    | none =>
      .error "invalid end time format, use RFC3339 (2006-01-02T15:04:05Z) or date format (2006-01-02)"
    | some endTime =>
      if startTime > endTime then .error "start time must be before end time"
      else .ok (startTime, endTime)

/-- `exporter.parseOIDRange`: `end_oid` 0 or absent means unbounded; reject
`start_oid > end_oid` only when the parsed `end_oid` is positive. -/
def parseOIDRange (q : HQuery) : Except String (Int × Int) :=
  match resolveOid q.startOid with
  | none => .error "invalid start_oid format, must be a valid integer"
  | some startOID =>
    match resolveOid q.endOid with
    | none => .error "invalid end_oid format, must be a valid integer"
    | some endOID =>
      if endOID > 0 ∧ startOID > endOID then
        .error "start_oid must be less than or equal to end_oid"
      else .ok (startOID, endOID)

/-- Result of a `/historical-metrics` request: an HTTP 400 with its plain-text
reason, or a 200 whose body is the metric line stream plus the optional
`X-Highest-OID` header. -/
inductive HandlerOutcome
  | clientError (msg : String)
  | ok (metricLines : List String) (highestOID : Option Int)

/-- The `WriteHistoricalMetrics` HTTP handler of the exporter (OID-range
variant): parse, query the table, stream with initialization values.  The
exporter state is passed through untouched, as in the source; `none` models a
panic while processing a record. -/
def writeHistoricalMetricsHandler (now : TimeMs) (q : HQuery)
    (table : List MilkingRecord) (st : ExporterState) :
    Option (HandlerOutcome × ExporterState) :=
  match q.startOid with
  | some _ =>
    match parseOIDRange q with
    | .error msg => some (.clientError msg, st)
    | .ok (startOID, endOID) =>
      match parseTimeRangeWithLocation now q with
      | .error msg => some (.clientError msg, st)
      | .ok (startTime, endTime) =>
        match WriteHistoricalMetricsWithInit
            (GetMilkingRecordsWithOIDRange table startTime endTime startOID endOID) with
        | none => none
        | some lines =>
          some (.ok lines
            (if highestOIDOf (GetMilkingRecordsWithOIDRange table startTime endTime startOID endOID) > 0
             then some (highestOIDOf (GetMilkingRecordsWithOIDRange table startTime endTime startOID endOID))
             else none), st)
  | none =>
    match parseTimeRangeWithLocation now q with
    | .error msg => some (.clientError msg, st)
    | .ok (startTime, endTime) =>
      match WriteHistoricalMetricsWithInit
          (GetMilkingRecordsWithOIDRange table startTime endTime 0 0) with
      | none => none
      | some lines =>
        some (.ok lines
          (if highestOIDOf (GetMilkingRecordsWithOIDRange table startTime endTime 0 0) > 0
           then some (highestOIDOf (GetMilkingRecordsWithOIDRange table startTime endTime 0 0))
           else none), st)

/-- A string without an opening brace (true of every metric name constant);
key injectivity of `mkKey` needs it. -/
def braceFree (s : String) : Prop := lbrace ∉ s.data

instance (s : String) : Decidable (braceFree s) := by
  unfold braceFree
  infer_instance

/-- Spec-side formulation of the teat decode table: bit 1 is left-front,
bit 2 right-front, bit 4 left-rear, bit 8 right-rear, listed in that order. -/
def decodeTeatsSpec (b : Nat) : List String :=
  (if b.testBit 0 then [Teat.str .leftFront] else []) ++
  (if b.testBit 1 then [Teat.str .rightFront] else []) ++
  (if b.testBit 2 then [Teat.str .leftRear] else []) ++
  (if b.testBit 3 then [Teat.str .rightRear] else [])

/-- The request-validation failures that the handler answers with HTTP 400:
an unparseable time bound; resolvable time bounds with start strictly after
end; and, only when `start_oid` is present, an unparseable OID parameter or
both OIDs resolved with a positive `end_oid` smaller than `start_oid`. -/
def BadRequest (now : TimeMs) (q : HQuery) : Prop :=
  resolveStart now q.start = none ∨
  resolveEnd now q.endT = none ∨
  (∃ sT eT, resolveStart now q.start = some sT ∧ resolveEnd now q.endT = some eT ∧ sT > eT) ∨
  (q.startOid.isSome ∧
    (resolveOid q.startOid = none ∨ resolveOid q.endOid = none ∨
     ∃ so eo, resolveOid q.startOid = some so ∧ resolveOid q.endOid = some eo ∧
       eo > 0 ∧ so > eo))

/-- A fully populated record used as concrete test input. -/
def wRec : MilkingRecord :=
  ⟨1, "7", "A", "R1", "H", "d1", "Tank", some 2, some 100, 10,
   some 5, some 60, some 3, some 3, some 0, 0, 1000000⟩

/-- A record of a second animal (different registration number). -/
def wRecB : MilkingRecord :=
  ⟨2, "8", "B", "R2", "H", "d1", "Tank", some 1, some 50, 7,
   some 4, some 50, some 2, some 0, some 0, 0, 2000000⟩

/-- A record whose `Conductivity` pointer is nil and whose other optional
fields are populated. -/
def c1Record : MilkingRecord :=
  ⟨1, "7", "A", "R1", "H", "d1", "Tank", some 2, some 100, 10,
   none, some 60, some 3, some 3, some 0, 0, 1000000⟩

/-- A record with the four unconditionally dereferenced fields populated but
nil `SomaticCellCount` and nil `DaysInLactation`. -/
def c1RecordB : MilkingRecord :=
  ⟨1, "7", "A", "R1", "H", "d1", "Tank", some 2, none, 10,
   some 5, some 60, none, some 3, some 0, 0, 1000000⟩

/-- A fresh exporter state: cursor 0, no checkpoint file, empty registry. -/
def wSt : ExporterState := ⟨0, none, emptySet⟩

/-- Example table row for the OID-range query: all rows share `EndTime` 500. -/
def mkExampleRec (oid : Int) : MilkingRecord :=
  ⟨oid, "", "", "", "", "", "", none, none, 0, some 0, some 0, some 0, some 0, some 0, 0, 500⟩

/-- Example table holding OIDs 5 through 11. -/
def exampleTable : List MilkingRecord :=
  [mkExampleRec 5, mkExampleRec 6, mkExampleRec 7, mkExampleRec 8, mkExampleRec 9,
   mkExampleRec 10, mkExampleRec 11]

/-- A request whose `start` and `end` denote the same instant. -/
def cexQuery : HQuery := ⟨some (.rfc 0), some (.rfc 0), none, none⟩

/-- A request with an unparseable `start` parameter. -/
def badStartQuery : HQuery := ⟨some .malformed, none, none, none⟩

/-! ### Key and string lemmas -/

theorem data_mkKey (n x : String) :
    (mkKey n x).data = n.data ++ (lbrace :: (x.data ++ [rbrace])) := by
  have h1 : ("\x7b").data = [lbrace] := by decide
  have h2 : ("\x7d").data = [rbrace] := by decide
  simp [mkKey, String.data_append, h1, h2]
  constructor <;> decide

theorem brace_split : ∀ (a b x y : List Char), lbrace ∉ a → lbrace ∉ b →
    a ++ lbrace :: x = b ++ lbrace :: y → a = b ∧ x = y := by
  intro a
  induction a with
  | nil =>
    intro b x y _ hb h
    cases b with
    | nil => simpa using h
    | cons c bs =>
      exfalso
      apply hb
      simp only [List.nil_append, List.cons_append, List.cons.injEq] at h
      rw [← h.1]
      exact List.mem_cons_self _ _
  | cons c as ih =>
    intro b x y ha hb h
    cases b with
    | nil =>
      exfalso
      apply ha
      simp only [List.nil_append, List.cons_append, List.cons.injEq] at h
      rw [h.1]
      exact List.mem_cons_self _ _
    | cons c' bs =>
      simp only [List.cons_append, List.cons.injEq] at h
      have ha' : lbrace ∉ as := fun hm => ha (List.mem_cons_of_mem _ hm)
      have hb' : lbrace ∉ bs := fun hm => hb (List.mem_cons_of_mem _ hm)
      obtain ⟨h1, h2⟩ := ih bs x y ha' hb' h.2
      exact ⟨by rw [h.1, h1], h2⟩

theorem mkKey_inj {n1 n2 x y : String} (h1 : braceFree n1) (h2 : braceFree n2)
    (h : mkKey n1 x = mkKey n2 y) : n1 = n2 ∧ x = y := by
  have hd := congrArg String.data h
  rw [data_mkKey, data_mkKey] at hd
  obtain ⟨ha, hb⟩ := brace_split _ _ _ _ h1 h2 hd
  exact ⟨String.ext ha, String.ext (List.append_cancel_right hb)⟩

theorem mkKey_ne_name {n1 n2 x y : String} (h1 : braceFree n1) (h2 : braceFree n2)
    (h : n1 ≠ n2) : mkKey n1 x ≠ mkKey n2 y :=
  fun he => h (mkKey_inj h1 h2 he).1

theorem mkKey_ne_label {n1 n2 x y : String} (h1 : braceFree n1) (h2 : braceFree n2)
    (h : x ≠ y) : mkKey n1 x ≠ mkKey n2 y :=
  fun he => h (mkKey_inj h1 h2 he).2

theorem str_append_cancel_left {s a b : String} (h : s ++ a = s ++ b) : a = b := by
  have hd := congrArg String.data h
  rw [String.data_append, String.data_append] at hd
  exact String.ext (List.append_cancel_left hd)

theorem str_append_cancel_right {s a b : String} (h : a ++ s = b ++ s) : a = b := by
  have hd := congrArg String.data h
  rw [String.data_append, String.data_append] at hd
  exact String.ext (List.append_cancel_right hd)

theorem teatLabelStr_inj {r : MilkingRecord} {t1 t2 : String}
    (h : r.TeatLabelStr t1 = r.TeatLabelStr t2) : t1 = t2 := by
  unfold MilkingRecord.TeatLabelStr at h
  have h1 : r.LabelStr ++ ",teat=\"" ++ t1 = r.LabelStr ++ ",teat=\"" ++ t2 :=
    str_append_cancel_right h
  exact str_append_cancel_left h1

/-! ### Metric-set operation lemmas -/

theorem alookup_upd {α : Type} (l : List (String × α)) (k : String) (f : Option α → α)
    (k' : String) :
    alookup (upd l k f) k' = if k' = k then some (f (alookup l k)) else alookup l k' := by
  induction l with
  | nil =>
    by_cases h : k' = k
    · subst h; simp [upd, alookup]
    · have h' : ¬k = k' := fun he => h he.symm
      simp [upd, alookup, h, h']
  | cons p t ih =>
    obtain ⟨k1, v⟩ := p
    by_cases h1 : k1 = k
    · subst h1
      by_cases h2 : k' = k1
      · subst h2; simp [upd, alookup]
      · have h2' : ¬k1 = k' := fun he => h2 he.symm
        simp [upd, alookup, h2, h2']
    · by_cases h2 : k1 = k'
      · subst h2
        simp [upd, alookup, h1]
      · simp [upd, alookup, h1, h2, ih]

theorem getGaugeVal_gaugeSet (s : MetricSet) (k : String) (v : Rat) (k' : String) :
    getGaugeVal (gaugeSet s k v) k' = if k' = k then v else getGaugeVal s k' := by
  simp only [getGaugeVal, gaugeSet, alookup_upd]
  split <;> simp

theorem getGaugeVal_gaugeAdd (s : MetricSet) (k : String) (v : Rat) (k' : String) :
    getGaugeVal (gaugeAdd s k v) k' =
      if k' = k then getGaugeVal s k + v else getGaugeVal s k' := by
  simp only [getGaugeVal, gaugeAdd, alookup_upd]
  split <;> simp

theorem getGaugeVal_gaugeInc (s : MetricSet) (k : String) (k' : String) :
    getGaugeVal (gaugeInc s k) k' =
      if k' = k then getGaugeVal s k + 1 else getGaugeVal s k' := by
  simp only [getGaugeVal, gaugeInc, alookup_upd]
  split <;> simp

theorem getGaugeVal_counterInc (s : MetricSet) (k k' : String) :
    getGaugeVal (counterInc s k) k' = getGaugeVal s k' := rfl

theorem getGaugeVal_histUpdate (s : MetricSet) (k : String) (v : Rat) (k' : String) :
    getGaugeVal (histUpdate s k v) k' = getGaugeVal s k' := rfl

theorem getCounterVal_counterInc (s : MetricSet) (k k' : String) :
    getCounterVal (counterInc s k) k' =
      if k' = k then getCounterVal s k + 1 else getCounterVal s k' := by
  simp only [getCounterVal, counterInc, alookup_upd]
  split <;> simp

theorem getCounterVal_gaugeSet (s : MetricSet) (k : String) (v : Rat) (k' : String) :
    getCounterVal (gaugeSet s k v) k' = getCounterVal s k' := rfl

theorem getCounterVal_gaugeAdd (s : MetricSet) (k : String) (v : Rat) (k' : String) :
    getCounterVal (gaugeAdd s k v) k' = getCounterVal s k' := rfl

theorem getCounterVal_gaugeInc (s : MetricSet) (k : String) (k' : String) :
    getCounterVal (gaugeInc s k) k' = getCounterVal s k' := rfl

theorem getCounterVal_histUpdate (s : MetricSet) (k : String) (v : Rat) (k' : String) :
    getCounterVal (histUpdate s k v) k' = getCounterVal s k' := rfl

/-! ### Teat decode lemmas -/

theorem getAffectedTeats_nodup (b : Int) : (GetAffectedTeats b).Nodup := by
  have h1 : List.Sublist (allTeats.filter (fun t => b.land t.val != 0)) allTeats :=
    List.filter_sublist _
  have h2 := List.Sublist.map Teat.str h1
  have h3 : (allTeats.map Teat.str).Nodup := by decide
  exact List.Nodup.sublist h2 h3

/-! ### Gauge tracking through teat folds -/

theorem getGaugeVal_foldl_gaugeInc (F : String → String) (ts : List String)
    (s : MetricSet) (k' : String) :
    getGaugeVal (ts.foldl (fun acc t => gaugeInc acc (F t)) s) k' =
      getGaugeVal s k' + ((ts.countP (fun t => decide (F t = k'))) : Rat) := by
  induction ts generalizing s with
  | nil => simp
  | cons t ts ih =>
    simp only [List.foldl_cons, ih, getGaugeVal_gaugeInc, List.countP_cons]
    by_cases h : F t = k'
    · rw [if_pos h.symm, h]
      simp only [decide_eq_true_eq, if_true]
      push_cast
      ring
    · have h' : ¬(k' = F t) := fun he => h he.symm
      rw [if_neg h']
      simp [h]

theorem countP_singleton_of_nodup {α : Type} [DecidableEq α] (F : α → String)
    (ts : List α) (t0 : α) (hnd : ts.Nodup) (hmem : t0 ∈ ts)
    (hinj : ∀ t ∈ ts, F t = F t0 → t = t0) :
    ts.countP (fun t => decide (F t = F t0)) = 1 := by
  induction ts with
  | nil => cases hmem
  | cons t ts ih =>
    rw [List.countP_cons]
    rcases List.mem_cons.mp hmem with h | h
    · subst h
      have hz : ts.countP (fun t => decide (F t = F t0)) = 0 := by
        rw [List.countP_eq_zero]
        intro a ha
        simp only [decide_eq_true_eq]
        intro hFa
        have := hinj a (List.mem_cons_of_mem _ ha) hFa
        subst this
        exact absurd ha (List.nodup_cons.mp hnd).1
      simp [hz]
    · have hne : t ≠ t0 := by
        intro he; subst he
        exact absurd h (List.nodup_cons.mp hnd).1
      have hFt : ¬(F t = F t0) := fun hF => hne (hinj t (List.mem_cons_self _ _) hF)
      rw [ih (List.nodup_cons.mp hnd).2 h
        (fun a ha hF => hinj a (List.mem_cons_of_mem _ ha) hF)]
      simp [hFt]

theorem countP_zero_of_ne (F : String → String) (ts : List String) (k' : String)
    (h : ∀ t ∈ ts, F t ≠ k') :
    ts.countP (fun t => decide (F t = k')) = 0 := by
  rw [List.countP_eq_zero]
  intro a ha
  simp only [decide_eq_true_eq]
  exact h a ha

/-! ### Per-step gauge and counter tracking -/

theorem getGaugeVal_sccStep_ne (s : MetricSet) (r : MilkingRecord) (k : String)
    (h1 : k ≠ r.MetricName MetricSomaticCellTotal)
    (h2 : k ≠ r.MetricName MetricLastSomaticCellTotal)
    (h3 : k ≠ r.MetricName MetricLastSCCTimestamp) :
    getGaugeVal (sccStep s r) k = getGaugeVal s k := by
  unfold sccStep
  cases r.SomaticCellCount with
  | none => rfl
  | some scc => simp [getGaugeVal_gaugeSet, getGaugeVal_gaugeAdd, h1, h2, h3]

theorem getGaugeVal_sccStep_total (s : MetricSet) (r : MilkingRecord) (scc : Int)
    (hscc : r.SomaticCellCount = some scc)
    (h2 : r.MetricName MetricSomaticCellTotal ≠ r.MetricName MetricLastSomaticCellTotal)
    (h3 : r.MetricName MetricSomaticCellTotal ≠ r.MetricName MetricLastSCCTimestamp) :
    getGaugeVal (sccStep s r) (r.MetricName MetricSomaticCellTotal) =
      getGaugeVal s (r.MetricName MetricSomaticCellTotal) + (scc : Rat) := by
  unfold sccStep
  rw [hscc]
  simp [getGaugeVal_gaugeSet, getGaugeVal_gaugeAdd, h2, h3]

theorem getGaugeVal_dilStep_ne (s : MetricSet) (r : MilkingRecord) (k : String)
    (h1 : k ≠ r.MetricName MetricDaysInLactation) :
    getGaugeVal (dilStep s r) k = getGaugeVal s k := by
  unfold dilStep
  cases r.DaysInLactation with
  | none => rfl
  | some dil => simp [getGaugeVal_gaugeSet, h1]

theorem getGaugeVal_teatGaugeIncs_ne (s : MetricSet) (r : MilkingRecord)
    (metric : String) (bitfield : Int) (k : String)
    (h : ∀ t, k ≠ r.TeatMetricName metric t) :
    getGaugeVal (teatGaugeIncs s r metric bitfield) k = getGaugeVal s k := by
  unfold teatGaugeIncs
  rw [getGaugeVal_foldl_gaugeInc]
  rw [countP_zero_of_ne _ _ _ (fun t _ he => h t he.symm)]
  simp

theorem getGaugeVal_teatGaugeIncs_mem (s : MetricSet) (r : MilkingRecord)
    (metric : String) (bitfield : Int) (t0 : String)
    (hbf : braceFree metric)
    (hmem : t0 ∈ GetAffectedTeats bitfield) :
    getGaugeVal (teatGaugeIncs s r metric bitfield) (r.TeatMetricName metric t0) =
      getGaugeVal s (r.TeatMetricName metric t0) + 1 := by
  unfold teatGaugeIncs
  rw [getGaugeVal_foldl_gaugeInc]
  rw [countP_singleton_of_nodup _ _ _ (getAffectedTeats_nodup bitfield) hmem]
  · simp
  · intro t _ hF
    exact teatLabelStr_inj (mkKey_inj hbf hbf hF).2

theorem getGaugeVal_teatsGaugeInc_ne (s : MetricSet) (r : MilkingRecord)
    (metric : String) (bitfield : Int) (k : String)
    (h : ∀ ts, k ≠ r.TeatsMetricName metric ts) :
    getGaugeVal (teatsGaugeInc s r metric bitfield) k = getGaugeVal s k := by
  unfold teatsGaugeInc
  split
  · simp [getGaugeVal_gaugeInc, h (GetAffectedTeatsString bitfield)]
  · rfl

theorem counters_gaugeSet (s : MetricSet) (k : String) (v : Rat) :
    (gaugeSet s k v).counters = s.counters := rfl

theorem counters_gaugeAdd (s : MetricSet) (k : String) (v : Rat) :
    (gaugeAdd s k v).counters = s.counters := rfl

theorem counters_gaugeInc (s : MetricSet) (k : String) :
    (gaugeInc s k).counters = s.counters := rfl

theorem counters_histUpdate (s : MetricSet) (k : String) (v : Rat) :
    (histUpdate s k v).counters = s.counters := rfl

theorem counters_sccStep (s : MetricSet) (r : MilkingRecord) :
    (sccStep s r).counters = s.counters := by
  unfold sccStep
  cases r.SomaticCellCount <;> rfl

theorem counters_dilStep (s : MetricSet) (r : MilkingRecord) :
    (dilStep s r).counters = s.counters := by
  unfold dilStep
  cases r.DaysInLactation <;> rfl

theorem counters_teatGaugeIncs (s : MetricSet) (r : MilkingRecord)
    (metric : String) (bitfield : Int) :
    (teatGaugeIncs s r metric bitfield).counters = s.counters := by
  unfold teatGaugeIncs
  generalize GetAffectedTeats bitfield = ts
  induction ts generalizing s with
  | nil => rfl
  | cons t ts ih => simp [List.foldl_cons, ih, counters_gaugeInc]

theorem counters_teatsGaugeInc (s : MetricSet) (r : MilkingRecord)
    (metric : String) (bitfield : Int) :
    (teatsGaugeInc s r metric bitfield).counters = s.counters := by
  unfold teatsGaugeInc
  split <;> rfl

theorem counters_applyRecordCore (s : MetricSet) (r : MilkingRecord) (c d inc kick : Int) :
    (applyRecordCore s r c d inc kick).counters =
      upd s.counters (r.MetricName MetricMilkSessions) (fun o => o.getD 0 + 1) := by
  unfold applyRecordCore
  simp only [counters_teatsGaugeInc, counters_teatGaugeIncs, counters_dilStep,
    counters_sccStep, counters_gaugeSet, counters_gaugeAdd, counters_histUpdate]
  rfl

/-! ### Per-record delta lemmas -/

theorem getCounterVal_applyRecordCore (s : MetricSet) (r : MilkingRecord)
    (c d inc kick : Int) (k : String) :
    getCounterVal (applyRecordCore s r c d inc kick) k =
      if k = r.MetricName MetricMilkSessions then getCounterVal s k + 1
      else getCounterVal s k := by
  unfold getCounterVal
  rw [counters_applyRecordCore, alookup_upd]
  split
  · rename_i h
    rw [h]
    simp
  · rfl


theorem applyRecordCore_yieldTotal (s : MetricSet) (r : MilkingRecord)
    (c d inc kick : Int) :
    getGaugeVal (applyRecordCore s r c d inc kick) (r.MetricName MetricMilkYieldTotal) =
      getGaugeVal s (r.MetricName MetricMilkYieldTotal) + r.Yield := by
  have hA : ∀ ts, r.MetricName MetricMilkYieldTotal ≠ r.TeatsMetricName MetricKickoffTeats ts :=
    fun ts => mkKey_ne_name (by decide) (by decide) (by decide)
  have hB : ∀ t, r.MetricName MetricMilkYieldTotal ≠ r.TeatMetricName MetricKickoff t :=
    fun t => mkKey_ne_name (by decide) (by decide) (by decide)
  have hC : ∀ ts, r.MetricName MetricMilkYieldTotal ≠ r.TeatsMetricName MetricIncompleteTeats ts :=
    fun ts => mkKey_ne_name (by decide) (by decide) (by decide)
  have hD : ∀ t, r.MetricName MetricMilkYieldTotal ≠ r.TeatMetricName MetricIncomplete t :=
    fun t => mkKey_ne_name (by decide) (by decide) (by decide)
  have hE : r.MetricName MetricMilkYieldTotal ≠ r.MetricName MetricDaysInLactation :=
    mkKey_ne_name (by decide) (by decide) (by decide)
  have hF : r.MetricName MetricMilkYieldTotal ≠ r.MetricName MetricSomaticCellTotal :=
    mkKey_ne_name (by decide) (by decide) (by decide)
  have hG : r.MetricName MetricMilkYieldTotal ≠ r.MetricName MetricLastSomaticCellTotal :=
    mkKey_ne_name (by decide) (by decide) (by decide)
  have hH : r.MetricName MetricMilkYieldTotal ≠ r.MetricName MetricLastSCCTimestamp :=
    mkKey_ne_name (by decide) (by decide) (by decide)
  have e1 : r.MetricName MetricMilkYieldTotal ≠ r.MetricName MetricLastDurationTimestamp :=
    mkKey_ne_name (by decide) (by decide) (by decide)
  have e2 : r.MetricName MetricMilkYieldTotal ≠ r.MetricName MetricLastMilkingDuration :=
    mkKey_ne_name (by decide) (by decide) (by decide)
  have e3 : r.MetricName MetricMilkYieldTotal ≠ r.MetricName MetricConductivity :=
    mkKey_ne_name (by decide) (by decide) (by decide)
  have e4 : r.MetricName MetricMilkYieldTotal ≠ r.MetricName MetricLastYieldTimestamp :=
    mkKey_ne_name (by decide) (by decide) (by decide)
  have e5 : r.MetricName MetricMilkYieldTotal ≠ r.MetricName MetricLastMilkYield :=
    mkKey_ne_name (by decide) (by decide) (by decide)
  simp only [applyRecordCore]
  rw [getGaugeVal_teatsGaugeInc_ne _ _ _ _ _ hA,
      getGaugeVal_teatGaugeIncs_ne _ _ _ _ _ hB,
      getGaugeVal_teatsGaugeInc_ne _ _ _ _ _ hC,
      getGaugeVal_teatGaugeIncs_ne _ _ _ _ _ hD,
      getGaugeVal_dilStep_ne _ _ _ hE,
      getGaugeVal_sccStep_ne _ _ _ hF hG hH]
  simp [getGaugeVal_gaugeSet, getGaugeVal_gaugeAdd, getGaugeVal_histUpdate,
    getGaugeVal_counterInc, e1, e2, e3, e4, e5]

theorem applyRecordCore_sccTotal (s : MetricSet) (r : MilkingRecord)
    (c d inc kick scc : Int) (hscc : r.SomaticCellCount = some scc) :
    getGaugeVal (applyRecordCore s r c d inc kick) (r.MetricName MetricSomaticCellTotal) =
      getGaugeVal s (r.MetricName MetricSomaticCellTotal) + (scc : Rat) := by
  have hA : ∀ ts, r.MetricName MetricSomaticCellTotal ≠ r.TeatsMetricName MetricKickoffTeats ts :=
    fun ts => mkKey_ne_name (by decide) (by decide) (by decide)
  have hB : ∀ t, r.MetricName MetricSomaticCellTotal ≠ r.TeatMetricName MetricKickoff t :=
    fun t => mkKey_ne_name (by decide) (by decide) (by decide)
  have hC : ∀ ts, r.MetricName MetricSomaticCellTotal ≠ r.TeatsMetricName MetricIncompleteTeats ts :=
    fun ts => mkKey_ne_name (by decide) (by decide) (by decide)
  have hD : ∀ t, r.MetricName MetricSomaticCellTotal ≠ r.TeatMetricName MetricIncomplete t :=
    fun t => mkKey_ne_name (by decide) (by decide) (by decide)
  have hE : r.MetricName MetricSomaticCellTotal ≠ r.MetricName MetricDaysInLactation :=
    mkKey_ne_name (by decide) (by decide) (by decide)
  have hG : r.MetricName MetricSomaticCellTotal ≠ r.MetricName MetricLastSomaticCellTotal :=
    mkKey_ne_name (by decide) (by decide) (by decide)
  have hH : r.MetricName MetricSomaticCellTotal ≠ r.MetricName MetricLastSCCTimestamp :=
    mkKey_ne_name (by decide) (by decide) (by decide)
  have e1 : r.MetricName MetricSomaticCellTotal ≠ r.MetricName MetricLastDurationTimestamp :=
    mkKey_ne_name (by decide) (by decide) (by decide)
  have e2 : r.MetricName MetricSomaticCellTotal ≠ r.MetricName MetricLastMilkingDuration :=
    mkKey_ne_name (by decide) (by decide) (by decide)
  have e3 : r.MetricName MetricSomaticCellTotal ≠ r.MetricName MetricConductivity :=
    mkKey_ne_name (by decide) (by decide) (by decide)
  have e4 : r.MetricName MetricSomaticCellTotal ≠ r.MetricName MetricMilkYieldTotal :=
    mkKey_ne_name (by decide) (by decide) (by decide)
  have e5 : r.MetricName MetricSomaticCellTotal ≠ r.MetricName MetricLastYieldTimestamp :=
    mkKey_ne_name (by decide) (by decide) (by decide)
  have e6 : r.MetricName MetricSomaticCellTotal ≠ r.MetricName MetricLastMilkYield :=
    mkKey_ne_name (by decide) (by decide) (by decide)
  simp only [applyRecordCore]
  rw [getGaugeVal_teatsGaugeInc_ne _ _ _ _ _ hA,
      getGaugeVal_teatGaugeIncs_ne _ _ _ _ _ hB,
      getGaugeVal_teatsGaugeInc_ne _ _ _ _ _ hC,
      getGaugeVal_teatGaugeIncs_ne _ _ _ _ _ hD,
      getGaugeVal_dilStep_ne _ _ _ hE,
      getGaugeVal_sccStep_total _ _ _ hscc hG hH]
  simp [getGaugeVal_gaugeSet, getGaugeVal_gaugeAdd, getGaugeVal_histUpdate,
    getGaugeVal_counterInc, e1, e2, e3, e4, e5, e6]

theorem applyRecordCore_incTeat (s : MetricSet) (r : MilkingRecord)
    (c d inc kick : Int) (t0 : String) (hmem : t0 ∈ GetAffectedTeats inc) :
    getGaugeVal (applyRecordCore s r c d inc kick) (r.TeatMetricName MetricIncomplete t0) =
      getGaugeVal s (r.TeatMetricName MetricIncomplete t0) + 1 := by
  have hA : ∀ ts, r.TeatMetricName MetricIncomplete t0 ≠ r.TeatsMetricName MetricKickoffTeats ts :=
    fun ts => mkKey_ne_name (by decide) (by decide) (by decide)
  have hB : ∀ t, r.TeatMetricName MetricIncomplete t0 ≠ r.TeatMetricName MetricKickoff t :=
    fun t => mkKey_ne_name (by decide) (by decide) (by decide)
  have hC : ∀ ts, r.TeatMetricName MetricIncomplete t0 ≠ r.TeatsMetricName MetricIncompleteTeats ts :=
    fun ts => mkKey_ne_name (by decide) (by decide) (by decide)
  have hE : r.TeatMetricName MetricIncomplete t0 ≠ r.MetricName MetricDaysInLactation :=
    mkKey_ne_name (by decide) (by decide) (by decide)
  have hF : r.TeatMetricName MetricIncomplete t0 ≠ r.MetricName MetricSomaticCellTotal :=
    mkKey_ne_name (by decide) (by decide) (by decide)
  have hG : r.TeatMetricName MetricIncomplete t0 ≠ r.MetricName MetricLastSomaticCellTotal :=
    mkKey_ne_name (by decide) (by decide) (by decide)
  have hH : r.TeatMetricName MetricIncomplete t0 ≠ r.MetricName MetricLastSCCTimestamp :=
    mkKey_ne_name (by decide) (by decide) (by decide)
  have e1 : r.TeatMetricName MetricIncomplete t0 ≠ r.MetricName MetricLastDurationTimestamp :=
    mkKey_ne_name (by decide) (by decide) (by decide)
  have e2 : r.TeatMetricName MetricIncomplete t0 ≠ r.MetricName MetricLastMilkingDuration :=
    mkKey_ne_name (by decide) (by decide) (by decide)
  have e3 : r.TeatMetricName MetricIncomplete t0 ≠ r.MetricName MetricConductivity :=
    mkKey_ne_name (by decide) (by decide) (by decide)
  have e4 : r.TeatMetricName MetricIncomplete t0 ≠ r.MetricName MetricMilkYieldTotal :=
    mkKey_ne_name (by decide) (by decide) (by decide)
  have e5 : r.TeatMetricName MetricIncomplete t0 ≠ r.MetricName MetricLastYieldTimestamp :=
    mkKey_ne_name (by decide) (by decide) (by decide)
  have e6 : r.TeatMetricName MetricIncomplete t0 ≠ r.MetricName MetricLastMilkYield :=
    mkKey_ne_name (by decide) (by decide) (by decide)
  simp only [applyRecordCore]
  rw [getGaugeVal_teatsGaugeInc_ne _ _ _ _ _ hA,
      getGaugeVal_teatGaugeIncs_ne _ _ _ _ _ hB,
      getGaugeVal_teatsGaugeInc_ne _ _ _ _ _ hC,
      getGaugeVal_teatGaugeIncs_mem _ _ _ _ _ (by decide) hmem,
      getGaugeVal_dilStep_ne _ _ _ hE,
      getGaugeVal_sccStep_ne _ _ _ hF hG hH]
  simp [getGaugeVal_gaugeSet, getGaugeVal_gaugeAdd, getGaugeVal_histUpdate,
    getGaugeVal_counterInc, e1, e2, e3, e4, e5, e6]

theorem applyRecordCore_kickTeat (s : MetricSet) (r : MilkingRecord)
    (c d inc kick : Int) (t0 : String) (hmem : t0 ∈ GetAffectedTeats kick) :
    getGaugeVal (applyRecordCore s r c d inc kick) (r.TeatMetricName MetricKickoff t0) =
      getGaugeVal s (r.TeatMetricName MetricKickoff t0) + 1 := by
  have hA : ∀ ts, r.TeatMetricName MetricKickoff t0 ≠ r.TeatsMetricName MetricKickoffTeats ts :=
    fun ts => mkKey_ne_name (by decide) (by decide) (by decide)
  have hC : ∀ ts, r.TeatMetricName MetricKickoff t0 ≠ r.TeatsMetricName MetricIncompleteTeats ts :=
    fun ts => mkKey_ne_name (by decide) (by decide) (by decide)
  have hD : ∀ t, r.TeatMetricName MetricKickoff t0 ≠ r.TeatMetricName MetricIncomplete t :=
    fun t => mkKey_ne_name (by decide) (by decide) (by decide)
  have hE : r.TeatMetricName MetricKickoff t0 ≠ r.MetricName MetricDaysInLactation :=
    mkKey_ne_name (by decide) (by decide) (by decide)
  have hF : r.TeatMetricName MetricKickoff t0 ≠ r.MetricName MetricSomaticCellTotal :=
    mkKey_ne_name (by decide) (by decide) (by decide)
  have hG : r.TeatMetricName MetricKickoff t0 ≠ r.MetricName MetricLastSomaticCellTotal :=
    mkKey_ne_name (by decide) (by decide) (by decide)
  have hH : r.TeatMetricName MetricKickoff t0 ≠ r.MetricName MetricLastSCCTimestamp :=
    mkKey_ne_name (by decide) (by decide) (by decide)
  have e1 : r.TeatMetricName MetricKickoff t0 ≠ r.MetricName MetricLastDurationTimestamp :=
    mkKey_ne_name (by decide) (by decide) (by decide)
  have e2 : r.TeatMetricName MetricKickoff t0 ≠ r.MetricName MetricLastMilkingDuration :=
    mkKey_ne_name (by decide) (by decide) (by decide)
  have e3 : r.TeatMetricName MetricKickoff t0 ≠ r.MetricName MetricConductivity :=
    mkKey_ne_name (by decide) (by decide) (by decide)
  have e4 : r.TeatMetricName MetricKickoff t0 ≠ r.MetricName MetricMilkYieldTotal :=
    mkKey_ne_name (by decide) (by decide) (by decide)
  have e5 : r.TeatMetricName MetricKickoff t0 ≠ r.MetricName MetricLastYieldTimestamp :=
    mkKey_ne_name (by decide) (by decide) (by decide)
  have e6 : r.TeatMetricName MetricKickoff t0 ≠ r.MetricName MetricLastMilkYield :=
    mkKey_ne_name (by decide) (by decide) (by decide)
  simp only [applyRecordCore]
  rw [getGaugeVal_teatsGaugeInc_ne _ _ _ _ _ hA,
      getGaugeVal_teatGaugeIncs_mem _ _ _ _ _ (by decide) hmem,
      getGaugeVal_teatsGaugeInc_ne _ _ _ _ _ hC,
      getGaugeVal_teatGaugeIncs_ne _ _ _ _ _ hD,
      getGaugeVal_dilStep_ne _ _ _ hE,
      getGaugeVal_sccStep_ne _ _ _ hF hG hH]
  simp [getGaugeVal_gaugeSet, getGaugeVal_gaugeAdd, getGaugeVal_histUpdate,
    getGaugeVal_counterInc, e1, e2, e3, e4, e5, e6]

/-! ### applyRecord inversion and totality on valid records -/

theorem applyRecord_inv {s s' : MetricSet} {r : MilkingRecord}
    (h : applyRecord s r = some s') :
    ∃ c d inc kick, r.Conductivity = some c ∧ r.Duration = some d ∧
      r.Incomplete = some inc ∧ r.Kickoff = some kick ∧
      s' = applyRecordCore s r c d inc kick := by
  unfold applyRecord at h
  cases hc : r.Conductivity <;> rw [hc] at h <;>
    cases hd : r.Duration <;> rw [hd] at h <;>
      cases hi : r.Incomplete <;> rw [hi] at h <;>
        cases hk : r.Kickoff <;> rw [hk] at h <;> simp at h
  exact ⟨_, _, _, _, rfl, rfl, rfl, rfl, h.symm⟩

theorem applyRecord_some_of_valid {r : MilkingRecord} (s : MetricSet) (hv : r.Valid) :
    ∃ s', applyRecord s r = some s' := by
  obtain ⟨h1, h2, h3, h4⟩ := hv
  obtain ⟨c, hc⟩ := Option.isSome_iff_exists.mp h1
  obtain ⟨d, hd⟩ := Option.isSome_iff_exists.mp h2
  obtain ⟨inc, hi⟩ := Option.isSome_iff_exists.mp h3
  obtain ⟨kick, hk⟩ := Option.isSome_iff_exists.mp h4
  exact ⟨_, by unfold applyRecord; rw [hc, hd, hi, hk]⟩

/-! ### CreateMetricsFromRecords totality -/

theorem CMFR_some_of_valid : ∀ (rs : List MilkingRecord) (s : MetricSet) (w : Bool),
    (∀ r ∈ rs, r.Valid) → ∃ p, CreateMetricsFromRecords s w rs = some p := by
  intro rs
  induction rs with
  | nil => exact fun s w _ => ⟨(s, []), rfl⟩
  | cons r rest ih =>
    intro s w hv
    obtain ⟨s1, h1⟩ := applyRecord_some_of_valid s (hv r (List.mem_cons_self _ _))
    obtain ⟨⟨sf, out⟩, h2⟩ := ih s1 w (fun x hx => hv x (List.mem_cons_of_mem _ hx))
    refine ⟨(sf, (if w then timestampLines r.EndTime (writePrometheus s1) else []) ++ out), ?_⟩
    simp only [CreateMetricsFromRecords]
    rw [h1]
    dsimp only
    rw [h2]

/-! ### Serialization membership lemmas -/

theorem alookup_mem {α : Type} {l : List (String × α)} {k : String} {v : α}
    (h : alookup l k = some v) : (k, v) ∈ l := by
  induction l with
  | nil => simp [alookup] at h
  | cons p t ih =>
    obtain ⟨k1, v1⟩ := p
    by_cases h1 : k1 = k
    · subst h1
      simp [alookup] at h
      subst h
      exact List.mem_cons_self _ _
    · simp [alookup, h1] at h
      exact List.mem_cons_of_mem _ (ih h)

theorem writePrometheus_counter_mem {s : MetricSet} {k : String} {n : Nat}
    (h : alookup s.counters k = some n) :
    (k ++ " " ++ toString n) ∈ writePrometheus s := by
  unfold writePrometheus
  exact List.mem_append_left _
    (List.mem_append_left _ (List.mem_map_of_mem _ (alookup_mem h)))

theorem hasInk_append (a b : String) : hasInk (a ++ b) = (hasInk a || hasInk b) := by
  unfold hasInk
  rw [String.data_append, List.any_append]

theorem hasInk_sessions (ℓ a b : String) :
    hasInk (mkKey MetricMilkSessions ℓ ++ a ++ b) = true := by
  have h : hasInk MetricMilkSessions = true := by decide
  simp [mkKey, hasInk_append, h]

theorem mem_timestampLines_form {line : String} {ts : Int} {lines : List String}
    (h : line ∈ timestampLines ts lines) : ∃ b, line = b ++ " " ++ toString ts := by
  unfold timestampLines at h
  obtain ⟨l, _, rfl⟩ := List.mem_map.mp h
  exact ⟨l, rfl⟩

theorem mem_timestampLines_of {l : String} {lines : List String} (ts : Int)
    (h : l ∈ lines) (hink : hasInk l = true) :
    (l ++ " " ++ toString ts) ∈ timestampLines ts lines :=
  List.mem_map_of_mem _ (List.mem_filter.mpr ⟨h, hink⟩)

theorem alookup_counters_applyRecordCore (s : MetricSet) (r : MilkingRecord)
    (c d inc kick : Int) (k : String) :
    alookup (applyRecordCore s r c d inc kick).counters k =
      if k = r.MetricName MetricMilkSessions
      then some ((alookup s.counters k).getD 0 + 1)
      else alookup s.counters k := by
  rw [counters_applyRecordCore, alookup_upd]
  split
  · rename_i h
    rw [h]
  · rfl

theorem chunk0_mem {s1 : MetricSet} {K : String} {n : Nat} (ts : Int)
    (h : alookup s1.counters K = some n) (hink : hasInk (K ++ " " ++ toString n) = true) :
    ∃ rest, (K ++ " " ++ rest) ∈ timestampLines ts (writePrometheus s1) := by
  refine ⟨toString n ++ " " ++ toString ts, ?_⟩
  have hm := mem_timestampLines_of ts (writePrometheus_counter_mem h) hink
  simpa [String.append_assoc] using hm

/-! ### Exporter state lemmas -/

theorem UpdateMetricsRecords_nil (st : ExporterState) :
    UpdateMetricsRecords [] st = some st := rfl

theorem UpdateMetricsRecords_lastOID {records : List MilkingRecord}
    {st st1 : ExporterState} (h : UpdateMetricsRecords records st = some st1) :
    st.lastOID ≤ st1.lastOID := by
  unfold UpdateMetricsRecords at h
  cases hc : CreateMetricsFromRecords st.registry false records with
  | none => rw [hc] at h; cases h
  | some p =>
    obtain ⟨reg, o⟩ := p
    rw [hc] at h
    dsimp only at h
    by_cases he : records.isEmpty
    · rw [if_pos he] at h
      simp only [Option.some.injEq] at h
      subst h
      exact le_refl _
    · rw [if_neg he] at h
      by_cases hh : highestOIDOf records > st.lastOID
      · rw [if_pos hh] at h
        simp only [Option.some.injEq] at h
        subst h
        exact le_of_lt hh
      · rw [if_neg hh] at h
        simp only [Option.some.injEq] at h
        subst h
        exact le_refl _

theorem SetLastOID_le (st : ExporterState) (x : Int) :
    st.lastOID ≤ (SetLastOID st x).lastOID := by
  unfold SetLastOID saveLastOID
  split
  · rename_i h
    simp only
    exact le_of_lt h
  · exact le_refl _

theorem SetLastOID_noop {st : ExporterState} {x : Int} (h : x ≤ st.lastOID) :
    SetLastOID st x = st := by
  unfold SetLastOID
  rw [if_neg (by omega)]

theorem SetLastOID_gt {st : ExporterState} {x : Int} (h : st.lastOID < x) :
    SetLastOID st x = ⟨x, some x, st.registry⟩ := by
  unfold SetLastOID saveLastOID
  rw [if_pos h]

theorem exStep_lastOID {st st' : ExporterState} {op : ExOp}
    (h : exStep st op = some st') : st.lastOID ≤ st'.lastOID := by
  cases op with
  | update records util =>
    unfold exStep at h
    dsimp only at h
    cases hu : UpdateMetricsRecords records st with
    | none => rw [hu] at h; cases h
    | some st1 =>
      rw [hu] at h
      simp only [Option.some.injEq] at h
      subst h
      exact show st.lastOID ≤ st1.lastOID from UpdateMetricsRecords_lastOID hu
  | setOID x =>
    unfold exStep at h
    dsimp only at h
    simp only [Option.some.injEq] at h
    subst h
    exact SetLastOID_le st x

theorem runOps_mono : ∀ (ops : List ExOp) (st st' : ExporterState),
    runOps st ops = some st' → st.lastOID ≤ st'.lastOID := by
  intro ops
  induction ops with
  | nil =>
    intro st st' h
    simp only [runOps, Option.some.injEq] at h
    subst h
    exact le_refl _
  | cons op t ih =>
    intro st st' h
    unfold runOps at h
    cases hs : exStep st op with
    | none => rw [hs] at h; cases h
    | some st1 =>
      rw [hs] at h
      exact le_trans (exStep_lastOID hs) (ih st1 st' h)

/-! ### Yield accumulation across a batch -/

theorem CMFR_yieldTotal : ∀ (rs : List MilkingRecord) (ℓ : String) (s : MetricSet) (w : Bool),
    (∀ r ∈ rs, r.Valid ∧ r.LabelStr = ℓ) →
    ∃ sf out, CreateMetricsFromRecords s w rs = some (sf, out) ∧
      getGaugeVal sf (mkKey MetricMilkYieldTotal ℓ) =
        getGaugeVal s (mkKey MetricMilkYieldTotal ℓ) + (rs.map MilkingRecord.Yield).sum := by
  intro rs
  induction rs with
  | nil =>
    intro ℓ s w _
    exact ⟨s, [], rfl, by simp⟩
  | cons r rest ih =>
    intro ℓ s w hv
    obtain ⟨hval, hlab⟩ := hv r (List.mem_cons_self _ _)
    obtain ⟨s1, h1⟩ := applyRecord_some_of_valid s hval
    obtain ⟨c, d, inc, kick, _, _, _, _, hcore⟩ := applyRecord_inv h1
    obtain ⟨sf, out, h2, hval2⟩ := ih ℓ s1 w (fun x hx => hv x (List.mem_cons_of_mem _ hx))
    refine ⟨sf, (if w then timestampLines r.EndTime (writePrometheus s1) else []) ++ out, ?_, ?_⟩
    · simp only [CreateMetricsFromRecords]
      rw [h1]
      dsimp only
      rw [h2]
    · rw [hval2, hcore]
      have hkey : r.MetricName MetricMilkYieldTotal = mkKey MetricMilkYieldTotal ℓ := by
        rw [MilkingRecord.MetricName, hlab]
      have hd := applyRecordCore_yieldTotal s r c d inc kick
      rw [hkey] at hd
      rw [hd]
      simp only [List.map_cons, List.sum_cons]
      ring

/-! ### Chunk structure of the historical output stream -/

theorem CMFR_chunk_structure : ∀ (rs : List MilkingRecord) (s sf : MetricSet)
    (out : List String),
    CreateMetricsFromRecords s true rs = some (sf, out) →
    ∃ chunks : List (List String),
      out = chunks.flatten ∧ chunks.length = rs.length ∧
      (∀ i (h1 : i < chunks.length) (h2 : i < rs.length), ∀ line ∈ chunks.get ⟨i, h1⟩,
        ∃ b, line = b ++ " " ++ toString (rs.get ⟨i, h2⟩).EndTime) ∧
      (∀ ℓ n, alookup s.counters (mkKey MetricMilkSessions ℓ) = some n →
        ∀ i (h1 : i < chunks.length),
          ∃ rest, (mkKey MetricMilkSessions ℓ ++ " " ++ rest) ∈ chunks.get ⟨i, h1⟩) ∧
      (∀ j (h3 : j < rs.length) (i : Nat) (h1 : i < chunks.length), j ≤ i →
        ∃ rest, ((rs.get ⟨j, h3⟩).MetricName MetricMilkSessions ++ " " ++ rest) ∈
          chunks.get ⟨i, h1⟩) := by
  intro rs
  induction rs with
  | nil =>
    intro s sf out h
    simp only [CreateMetricsFromRecords, Option.some.injEq, Prod.mk.injEq] at h
    refine ⟨[], h.2.symm, rfl, ?_, ?_, ?_⟩
    · intro i h1
      exact absurd h1 (Nat.not_lt_zero i)
    · intro ℓ n _ i h1
      exact absurd h1 (Nat.not_lt_zero i)
    · intro j _ i h1
      exact absurd h1 (Nat.not_lt_zero i)
  | cons r rest ih =>
    intro s sf out h
    simp only [CreateMetricsFromRecords] at h
    cases happ : applyRecord s r with
    | none => rw [happ] at h; cases h
    | some s1 =>
      rw [happ] at h
      dsimp only at h
      cases hrec : CreateMetricsFromRecords s1 true rest with
      | none => rw [hrec] at h; cases h
      | some p =>
        obtain ⟨sf1, out1⟩ := p
        rw [hrec] at h
        simp only [if_true, Option.some.injEq, Prod.mk.injEq] at h
        obtain ⟨hsf, hout⟩ := h
        obtain ⟨chunks1, hflat, hlen, hts, hpres, hsess⟩ := ih s1 sf1 out1 hrec
        obtain ⟨c, d, inc, kick, _, _, _, _, hcore⟩ := applyRecord_inv happ
        have hlook : ∀ ℓ n, alookup s.counters (mkKey MetricMilkSessions ℓ) = some n →
            ∃ n', alookup s1.counters (mkKey MetricMilkSessions ℓ) = some n' := by
          intro ℓ n hn
          rw [hcore, alookup_counters_applyRecordCore]
          split
          · exact ⟨_, rfl⟩
          · exact ⟨n, hn⟩
        have hlookR : ∃ n', alookup s1.counters (r.MetricName MetricMilkSessions) = some n' := by
          rw [hcore, alookup_counters_applyRecordCore]
          rw [if_pos rfl]
          exact ⟨_, rfl⟩
        refine ⟨timestampLines r.EndTime (writePrometheus s1) :: chunks1, ?_, ?_, ?_, ?_, ?_⟩
        · rw [← hout, List.flatten_cons, hflat]
        · simp [hlen]
        · intro i h1 h2 line hline
          cases i with
          | zero => exact mem_timestampLines_form hline
          | succ i' =>
            exact hts i' (Nat.lt_of_succ_lt_succ h1) (Nat.lt_of_succ_lt_succ h2) line hline
        · intro ℓ n hn i h1
          obtain ⟨n', hn'⟩ := hlook ℓ n hn
          cases i with
          | zero => exact chunk0_mem r.EndTime hn' (hasInk_sessions ℓ _ _)
          | succ i' => exact hpres ℓ n' hn' i' (Nat.lt_of_succ_lt_succ h1)
        · intro j h3 i h1 hji
          cases j with
          | zero =>
            obtain ⟨n', hn'⟩ := hlookR
            cases i with
            | zero =>
              simp only [List.get]
              have hink : hasInk (r.MetricName MetricMilkSessions ++ " " ++ toString n') = true := by
                simp only [MilkingRecord.MetricName]
                exact hasInk_sessions _ _ _
              exact chunk0_mem r.EndTime hn' hink
            | succ i' =>
              simp only [List.get]
              have hn'' : alookup s1.counters (mkKey MetricMilkSessions r.LabelStr) = some n' := hn'
              have := hpres r.LabelStr n' hn'' i' (Nat.lt_of_succ_lt_succ h1)
              simpa [MilkingRecord.MetricName] using this
          | succ j' =>
            cases i with
            | zero => exact absurd hji (by omega)
            | succ i' =>
              simp only [List.get]
              exact hsess j' (Nat.lt_of_succ_lt_succ h3) i' (Nat.lt_of_succ_lt_succ h1)
                (Nat.le_of_succ_le_succ hji)

/-! ### Initialization grouping lemmas -/

theorem alookup_isSome_iff {α : Type} (l : List (String × α)) (k : String) :
    (alookup l k).isSome = true ↔ k ∈ l.map Prod.fst := by
  induction l with
  | nil => simp [alookup]
  | cons p t ih =>
    obtain ⟨k1, v⟩ := p
    by_cases h : k1 = k
    · subst h; simp [alookup]
    · have h' : ¬k = k1 := fun he => h he.symm
      simp [alookup, h, h', ih]

theorem alookup_upsertEarlier (acc : List (String × MilkingRecord)) (r : MilkingRecord)
    (k : String) :
    alookup (upsertEarlier acc r) k =
      if k = r.LabelStr then
        some (match alookup acc k with
              | none => r
              | some e => if r.EndTime < e.EndTime then r else e)
      else alookup acc k := by
  induction acc with
  | nil =>
    simp only [upsertEarlier, alookup]
    by_cases h : k = r.LabelStr
    · rw [if_pos h.symm, if_pos h]
    · have h' : ¬r.LabelStr = k := fun he => h he.symm
      rw [if_neg h', if_neg h]
  | cons p t ih =>
    obtain ⟨k1, e⟩ := p
    by_cases h1 : k1 = r.LabelStr
    · by_cases h2 : k1 = k
      · have hkl : k = r.LabelStr := by rw [← h2, h1]
        by_cases h3 : r.EndTime < e.EndTime
        · rw [show upsertEarlier ((k1, e) :: t) r = (k1, r) :: t from by
                simp only [upsertEarlier]; rw [if_pos h1, if_pos h3]]
          simp only [alookup]
          rw [if_pos h2, if_pos h2, if_pos hkl]
          dsimp only
          rw [if_pos h3]
        · rw [show upsertEarlier ((k1, e) :: t) r = (k1, e) :: t from by
                simp only [upsertEarlier]; rw [if_pos h1, if_neg h3]]
          simp only [alookup]
          rw [if_pos h2, if_pos hkl]
          dsimp only
          rw [if_neg h3]
      · have hkl : ¬k = r.LabelStr := by
          rw [← h1]
          exact fun he => h2 he.symm
        by_cases h3 : r.EndTime < e.EndTime
        · rw [show upsertEarlier ((k1, e) :: t) r = (k1, r) :: t from by
                simp only [upsertEarlier]; rw [if_pos h1, if_pos h3]]
          simp only [alookup]
          rw [if_neg h2, if_neg h2, if_neg hkl]
        · rw [show upsertEarlier ((k1, e) :: t) r = (k1, e) :: t from by
                simp only [upsertEarlier]; rw [if_pos h1, if_neg h3]]
          rw [if_neg hkl]
    · rw [show upsertEarlier ((k1, e) :: t) r = (k1, e) :: upsertEarlier t r from by
            simp only [upsertEarlier]; rw [if_neg h1]]
      by_cases h2 : k1 = k
      · have hkl : ¬k = r.LabelStr := by
          rw [← h2]
          exact h1
        simp only [alookup]
        rw [if_pos h2, if_neg hkl]
        rw [if_pos h2]
      · rw [show alookup ((k1, e) :: upsertEarlier t r) k = alookup (upsertEarlier t r) k from by
              simp only [alookup]; rw [if_neg h2]]
        rw [show alookup ((k1, e) :: t) k = alookup t k from by
              simp only [alookup]; rw [if_neg h2]]
        exact ih

theorem keys_upsertEarlier (acc : List (String × MilkingRecord)) (r : MilkingRecord) :
    (upsertEarlier acc r).map Prod.fst =
      if (alookup acc r.LabelStr).isSome then acc.map Prod.fst
      else acc.map Prod.fst ++ [r.LabelStr] := by
  induction acc with
  | nil => simp [upsertEarlier, alookup]
  | cons p t ih =>
    obtain ⟨k1, e⟩ := p
    by_cases h1 : k1 = r.LabelStr
    · subst h1
      by_cases h3 : r.EndTime < e.EndTime
      · simp [upsertEarlier, alookup, h3]
      · simp [upsertEarlier, alookup, h3]
    · have h1' : ¬k1 = r.LabelStr := h1
      simp only [upsertEarlier, if_neg h1', alookup, List.map_cons]
      rw [ih]
      split <;> simp

theorem keys_nodup_upsertEarlier (acc : List (String × MilkingRecord)) (r : MilkingRecord)
    (h : (acc.map Prod.fst).Nodup) : ((upsertEarlier acc r).map Prod.fst).Nodup := by
  rw [keys_upsertEarlier]
  split
  · exact h
  · rename_i hns
    rw [List.nodup_append]
    refine ⟨h, List.nodup_singleton _, ?_⟩
    intro x hx hx2
    rw [List.mem_singleton] at hx2
    subst hx2
    rw [← alookup_isSome_iff] at hx
    exact hns hx

theorem seenAnimals_fold_inv : ∀ (rs : List MilkingRecord)
    (acc : List (String × MilkingRecord)) (processed : List MilkingRecord),
    (acc.map Prod.fst).Nodup →
    (∀ k, (match alookup acc k with
           | none => ∀ r ∈ processed, r.LabelStr ≠ k
           | some e => e ∈ processed ∧ e.LabelStr = k ∧
               ∀ r' ∈ processed, r'.LabelStr = k → e.EndTime ≤ r'.EndTime)) →
    ((List.foldl upsertEarlier acc rs).map Prod.fst).Nodup ∧
    (∀ k, (match alookup (List.foldl upsertEarlier acc rs) k with
           | none => ∀ r ∈ processed ++ rs, r.LabelStr ≠ k
           | some e => e ∈ processed ++ rs ∧ e.LabelStr = k ∧
               ∀ r' ∈ processed ++ rs, r'.LabelStr = k → e.EndTime ≤ r'.EndTime)) := by
  intro rs
  induction rs with
  | nil =>
    intro acc processed h1 h2
    simpa using ⟨h1, h2⟩
  | cons r rest ih =>
    intro acc processed h1 h2
    have step1 : ((upsertEarlier acc r).map Prod.fst).Nodup := keys_nodup_upsertEarlier acc r h1
    have step2 : ∀ k, (match alookup (upsertEarlier acc r) k with
        | none => ∀ x ∈ processed ++ [r], x.LabelStr ≠ k
        | some e => e ∈ processed ++ [r] ∧ e.LabelStr = k ∧
            ∀ r' ∈ processed ++ [r], r'.LabelStr = k → e.EndTime ≤ r'.EndTime) := by
      intro k
      rw [alookup_upsertEarlier]
      by_cases hk : k = r.LabelStr
      · rw [if_pos hk]
        have h2k := h2 k
        subst hk
        cases hacc : alookup acc r.LabelStr with
        | none =>
          rw [hacc] at h2k
          dsimp only
          refine ⟨List.mem_append_right _ (by simp), rfl, ?_⟩
          intro r' hr' hl
          rcases List.mem_append.mp hr' with hm | hm
          · exact absurd hl (h2k r' hm)
          · rw [List.mem_singleton.mp hm]
        | some e =>
          rw [hacc] at h2k
          obtain ⟨hmem, hlab, hmin⟩ := h2k
          dsimp only
          by_cases hlt : r.EndTime < e.EndTime
          · rw [if_pos hlt]
            refine ⟨List.mem_append_right _ (by simp), rfl, ?_⟩
            intro r' hr' hl
            rcases List.mem_append.mp hr' with hm | hm
            · exact le_trans (le_of_lt hlt) (hmin r' hm hl)
            · rw [List.mem_singleton.mp hm]
          · rw [if_neg hlt]
            refine ⟨List.mem_append_left _ hmem, hlab, ?_⟩
            intro r' hr' hl
            rcases List.mem_append.mp hr' with hm | hm
            · exact hmin r' hm hl
            · rw [List.mem_singleton.mp hm]
              exact le_of_not_lt hlt
      · rw [if_neg hk]
        have h2k := h2 k
        cases hacc : alookup acc k with
        | none =>
          rw [hacc] at h2k
          dsimp only
          intro x hx
          rcases List.mem_append.mp hx with hm | hm
          · exact h2k x hm
          · rw [List.mem_singleton.mp hm]
            exact fun he => hk he.symm
        | some e =>
          rw [hacc] at h2k
          obtain ⟨hmem, hlab, hmin⟩ := h2k
          dsimp only
          refine ⟨List.mem_append_left _ hmem, hlab, ?_⟩
          intro r' hr' hl
          rcases List.mem_append.mp hr' with hm | hm
          · exact hmin r' hm hl
          · exfalso
            rw [List.mem_singleton.mp hm] at hl
            exact hk hl.symm
    have hmain := ih (upsertEarlier acc r) (processed ++ [r]) step1 step2
    rw [List.append_assoc] at hmain
    simpa using hmain

theorem seenAnimals_spec (rs : List MilkingRecord) :
    ((seenAnimals rs).map Prod.fst).Nodup ∧
    (∀ k, (match alookup (seenAnimals rs) k with
           | none => ∀ r ∈ rs, r.LabelStr ≠ k
           | some e => e ∈ rs ∧ e.LabelStr = k ∧
               ∀ r' ∈ rs, r'.LabelStr = k → e.EndTime ≤ r'.EndTime)) := by
  have hbase : ∀ k, (match alookup ([] : List (String × MilkingRecord)) k with
      | none => ∀ r ∈ ([] : List MilkingRecord), r.LabelStr ≠ k
      | some e => e ∈ ([] : List MilkingRecord) ∧ e.LabelStr = k ∧
          ∀ r' ∈ ([] : List MilkingRecord), r'.LabelStr = k → e.EndTime ≤ r'.EndTime) := by
    intro k
    dsimp [alookup]
    intro r hr
    cases hr
  have := seenAnimals_fold_inv rs [] [] (by simp) hbase
  simpa using this

/-! ### Partition (group-by-registration-number) lemmas -/

theorem alookup_addToGroup (acc : List (String × List MilkingRecord)) (r : MilkingRecord)
    (k : String) :
    alookup (addToGroup acc r) k =
      if k = r.AnimalRegNo then some ((alookup acc k).getD [] ++ [r])
      else alookup acc k := by
  induction acc with
  | nil =>
    simp only [addToGroup, alookup]
    by_cases h : k = r.AnimalRegNo
    · rw [if_pos h.symm, if_pos h]
      rfl
    · have h' : ¬r.AnimalRegNo = k := fun he => h he.symm
      rw [if_neg h', if_neg h]
  | cons p t ih =>
    obtain ⟨k1, l⟩ := p
    by_cases h1 : k1 = r.AnimalRegNo
    · rw [show addToGroup ((k1, l) :: t) r = (k1, l ++ [r]) :: t from by
            simp only [addToGroup]; rw [if_pos h1]]
      by_cases h2 : k1 = k
      · have hkr : k = r.AnimalRegNo := by rw [← h2, h1]
        simp only [alookup]
        rw [if_pos h2, if_pos h2, if_pos hkr]
        rfl
      · have hkr : ¬k = r.AnimalRegNo := by
          rw [← h1]
          exact fun he => h2 he.symm
        simp only [alookup]
        rw [if_neg h2, if_neg h2, if_neg hkr]
    · rw [show addToGroup ((k1, l) :: t) r = (k1, l) :: addToGroup t r from by
            simp only [addToGroup]; rw [if_neg h1]]
      by_cases h2 : k1 = k
      · have hkr : ¬k = r.AnimalRegNo := by
          rw [← h2]
          exact h1
        simp only [alookup]
        rw [if_pos h2, if_pos h2, if_neg hkr]
      · simp only [alookup]
        rw [if_neg h2, if_neg h2]
        exact ih

theorem group_lookup : ∀ (rs : List MilkingRecord) (acc : List (String × List MilkingRecord))
    (a : String),
    alookup (List.foldl addToGroup acc rs) a =
      match alookup acc a with
      | some l => some (l ++ rs.filter (fun r => r.AnimalRegNo == a))
      | none =>
        if (rs.filter (fun r => r.AnimalRegNo == a)).isEmpty then none
        else some (rs.filter (fun r => r.AnimalRegNo == a)) := by
  intro rs
  induction rs with
  | nil =>
    intro acc a
    cases h : alookup acc a <;> simp [h]
  | cons r rest ih =>
    intro acc a
    rw [List.foldl_cons, ih]
    by_cases ha : a = r.AnimalRegNo
    · have hb : (r.AnimalRegNo == a) = true := by
        rw [ha]
        exact beq_self_eq_true _
      rw [alookup_addToGroup, if_pos ha]
      rw [show (r :: rest).filter (fun x => x.AnimalRegNo == a) =
            r :: rest.filter (fun x => x.AnimalRegNo == a) from by
            rw [List.filter_cons, if_pos hb]]
      cases hacc : alookup acc a with
      | none =>
        dsimp only
        simp
      | some l =>
        dsimp only
        simp [List.append_assoc]
    · have hb : (r.AnimalRegNo == a) = false := by
        rw [beq_eq_false_iff_ne]
        exact fun he => ha he.symm
      rw [alookup_addToGroup, if_neg ha]
      rw [show (r :: rest).filter (fun x => x.AnimalRegNo == a) =
            rest.filter (fun x => x.AnimalRegNo == a) from by
            rw [List.filter_cons, if_neg (by simp [hb])]]

theorem mem_addToGroup : ∀ (acc : List (String × List MilkingRecord)) (r : MilkingRecord)
    (p : String × List MilkingRecord), p ∈ addToGroup acc r →
    ∀ x ∈ p.2, (∃ q ∈ acc, x ∈ q.2) ∨ x = r := by
  intro acc
  induction acc with
  | nil =>
    intro r p hp x hx
    simp only [addToGroup, List.mem_singleton] at hp
    subst hp
    simp only [List.mem_singleton] at hx
    exact Or.inr hx
  | cons q t ih =>
    intro r p hp x hx
    obtain ⟨k1, l⟩ := q
    by_cases h1 : k1 = r.AnimalRegNo
    · rw [show addToGroup ((k1, l) :: t) r = (k1, l ++ [r]) :: t from by
            simp only [addToGroup]; rw [if_pos h1]] at hp
      rcases List.mem_cons.mp hp with h | h
      · subst h
        rcases List.mem_append.mp hx with hm | hm
        · exact Or.inl ⟨(k1, l), List.mem_cons_self _ _, hm⟩
        · exact Or.inr (List.mem_singleton.mp hm)
      · exact Or.inl ⟨p, List.mem_cons_of_mem _ h, hx⟩
    · rw [show addToGroup ((k1, l) :: t) r = (k1, l) :: addToGroup t r from by
            simp only [addToGroup]; rw [if_neg h1]] at hp
      rcases List.mem_cons.mp hp with h | h
      · subst h
        exact Or.inl ⟨(k1, l), List.mem_cons_self _ _, hx⟩
      · rcases ih r p h x hx with ⟨q', hq', hxq⟩ | h2
        · exact Or.inl ⟨q', List.mem_cons_of_mem _ hq', hxq⟩
        · exact Or.inr h2

theorem groups_members : ∀ (rs : List MilkingRecord)
    (acc : List (String × List MilkingRecord)) (p : String × List MilkingRecord),
    p ∈ List.foldl addToGroup acc rs →
    ∀ x ∈ p.2, (∃ q ∈ acc, x ∈ q.2) ∨ x ∈ rs := by
  intro rs
  induction rs with
  | nil =>
    intro acc p hp x hx
    exact Or.inl ⟨p, hp, hx⟩
  | cons r rest ih =>
    intro acc p hp x hx
    rw [List.foldl_cons] at hp
    rcases ih (addToGroup acc r) p hp x hx with ⟨q, hq, hxq⟩ | h2
    · rcases mem_addToGroup acc r q hq x hxq with ⟨q', hq', hxq'⟩ | h3
      · exact Or.inl ⟨q', hq', hxq'⟩
      · exact Or.inr (h3 ▸ List.mem_cons_self _ _)
    · exact Or.inr (List.mem_cons_of_mem _ h2)

theorem groupByRegNo_members {rs : List MilkingRecord} {p : String × List MilkingRecord}
    (hp : p ∈ groupByRegNo rs) : ∀ x ∈ p.2, x ∈ rs := by
  intro x hx
  rcases groups_members rs [] p hp x hx with ⟨q, hq, _⟩ | h
  · cases hq
  · exact h

theorem writeGroups_some : ∀ (gs : List (String × List MilkingRecord)),
    (∀ p ∈ gs, ∀ x ∈ p.2, x.Valid) → ∃ out, writeGroups gs = some out := by
  intro gs
  induction gs with
  | nil => exact fun _ => ⟨[], rfl⟩
  | cons p t ih =>
    intro hv
    obtain ⟨k, l⟩ := p
    obtain ⟨⟨sf, out1⟩, h1⟩ := CMFR_some_of_valid l emptySet true
      (fun x hx => hv (k, l) (List.mem_cons_self _ _) x hx)
    obtain ⟨out2, h2⟩ := ih (fun q hq x hx => hv q (List.mem_cons_of_mem _ hq) x hx)
    refine ⟨out1 ++ out2, ?_⟩
    simp only [writeGroups]
    rw [h1]
    dsimp only
    rw [h2]

theorem WriteHistoricalMetrics_some {rs : List MilkingRecord}
    (hv : ∀ r ∈ rs, r.Valid) : ∃ out, WriteHistoricalMetrics rs = some out := by
  unfold WriteHistoricalMetrics
  exact writeGroups_some _ (fun p hp x hx => hv x (groupByRegNo_members hp x hx))

/-! ### OID sort lemmas -/

theorem mem_insertByOID (r x : MilkingRecord) : ∀ (l : List MilkingRecord),
    x ∈ insertByOID r l ↔ x = r ∨ x ∈ l := by
  intro l
  induction l with
  | nil => simp [insertByOID]
  | cons y t ih =>
    simp only [insertByOID]
    split
    · simp [List.mem_cons]
    · simp only [List.mem_cons, ih]
      tauto

theorem mem_sortByOID (x : MilkingRecord) : ∀ (l : List MilkingRecord),
    x ∈ sortByOID l ↔ x ∈ l := by
  intro l
  induction l with
  | nil => simp [sortByOID]
  | cons y t ih =>
    simp only [sortByOID, List.foldr_cons] at *
    rw [mem_insertByOID, ih, List.mem_cons]

theorem sorted_insertByOID (r : MilkingRecord) : ∀ (l : List MilkingRecord),
    l.Pairwise (fun a b => a.OID ≤ b.OID) →
    (insertByOID r l).Pairwise (fun a b => a.OID ≤ b.OID) := by
  intro l
  induction l with
  | nil => intro _; simp [insertByOID]
  | cons y t ih =>
    intro h
    obtain ⟨hy, ht⟩ := List.pairwise_cons.mp h
    simp only [insertByOID]
    split
    · rename_i hle
      rw [List.pairwise_cons]
      refine ⟨?_, h⟩
      intro b hb
      rcases List.mem_cons.mp hb with hb1 | hb2
      · subst hb1; exact hle
      · exact le_trans hle (hy b hb2)
    · rename_i hgt
      rw [List.pairwise_cons]
      refine ⟨?_, ih ht⟩
      intro b hb
      rcases (mem_insertByOID r b t).mp hb with hb1 | hb2
      · subst hb1
        omega
      · exact hy b hb2

theorem sorted_sortByOID : ∀ (l : List MilkingRecord),
    (sortByOID l).Pairwise (fun a b => a.OID ≤ b.OID) := by
  intro l
  induction l with
  | nil => simp [sortByOID]
  | cons y t ih =>
    simp only [sortByOID, List.foldr_cons] at *
    exact sorted_insertByOID y _ ih

/-! ### Historical-request validation lemmas -/

theorem parseTime_err1 {now : TimeMs} {q : HQuery} (h : resolveStart now q.start = none) :
    parseTimeRangeWithLocation now q =
      .error "invalid start time format, use RFC3339 (2006-01-02T15:04:05Z) or date format (2006-01-02)" := by
  unfold parseTimeRangeWithLocation
  rw [h]

theorem parseTime_err2 {now : TimeMs} {q : HQuery} {sT : TimeMs}
    (hs : resolveStart now q.start = some sT) (h : resolveEnd now q.endT = none) :
    parseTimeRangeWithLocation now q =
      .error "invalid end time format, use RFC3339 (2006-01-02T15:04:05Z) or date format (2006-01-02)" := by
  unfold parseTimeRangeWithLocation
  rw [hs]
  dsimp only
  rw [h]

theorem parseTime_err3 {now : TimeMs} {q : HQuery} {sT eT : TimeMs}
    (hs : resolveStart now q.start = some sT) (he : resolveEnd now q.endT = some eT)
    (hgt : sT > eT) :
    parseTimeRangeWithLocation now q = .error "start time must be before end time" := by
  unfold parseTimeRangeWithLocation
  rw [hs]
  dsimp only
  rw [he]
  dsimp only
  rw [if_pos hgt]

theorem parseOID_err1 {q : HQuery} (h : resolveOid q.startOid = none) :
    parseOIDRange q = .error "invalid start_oid format, must be a valid integer" := by
  unfold parseOIDRange
  rw [h]

theorem parseOID_err2 {q : HQuery} {so : Int} (hs : resolveOid q.startOid = some so)
    (h : resolveOid q.endOid = none) :
    parseOIDRange q = .error "invalid end_oid format, must be a valid integer" := by
  unfold parseOIDRange
  rw [hs]
  dsimp only
  rw [h]

theorem parseOID_err3 {q : HQuery} {so eo : Int} (hs : resolveOid q.startOid = some so)
    (he : resolveOid q.endOid = some eo) (h1 : eo > 0) (h2 : so > eo) :
    parseOIDRange q = .error "start_oid must be less than or equal to end_oid" := by
  unfold parseOIDRange
  rw [hs]
  dsimp only
  rw [he]
  dsimp only
  rw [if_pos ⟨h1, h2⟩]

theorem parseOIDRange_error_msg {q : HQuery} {msg : String}
    (h : parseOIDRange q = .error msg) : msg ≠ "" := by
  unfold parseOIDRange at h
  cases h1 : resolveOid q.startOid with
  | none =>
    rw [h1] at h
    simp only [Except.error.injEq] at h
    subst h
    decide
  | some so =>
    rw [h1] at h
    dsimp only at h
    cases h2 : resolveOid q.endOid with
    | none =>
      rw [h2] at h
      simp only [Except.error.injEq] at h
      subst h
      decide
    | some eo =>
      rw [h2] at h
      dsimp only at h
      split at h
      · simp only [Except.error.injEq] at h
        subst h
        decide
      · cases h

theorem handler_of_parseOID_error {now : TimeMs} {q : HQuery} {table : List MilkingRecord}
    {st : ExporterState} {p : OidParam} {msg : String} (hso : q.startOid = some p)
    (h : parseOIDRange q = .error msg) :
    writeHistoricalMetricsHandler now q table st = some (.clientError msg, st) := by
  unfold writeHistoricalMetricsHandler
  rw [hso]
  dsimp only
  rw [h]

theorem handler_of_parseTime_error_oid {now : TimeMs} {q : HQuery}
    {table : List MilkingRecord} {st : ExporterState} {p : OidParam} {pr : Int × Int}
    {msg : String} (hso : q.startOid = some p) (hok : parseOIDRange q = .ok pr)
    (h : parseTimeRangeWithLocation now q = .error msg) :
    writeHistoricalMetricsHandler now q table st = some (.clientError msg, st) := by
  unfold writeHistoricalMetricsHandler
  rw [hso]
  dsimp only
  rw [hok]
  dsimp only
  rw [h]

theorem handler_of_parseTime_error_noOid {now : TimeMs} {q : HQuery}
    {table : List MilkingRecord} {st : ExporterState} {msg : String}
    (hso : q.startOid = none) (h : parseTimeRangeWithLocation now q = .error msg) :
    writeHistoricalMetricsHandler now q table st = some (.clientError msg, st) := by
  unfold writeHistoricalMetricsHandler
  rw [hso]
  dsimp only
  rw [h]

/-! ### Claim theorems -/

/-- C6: for every bitfield value 0 through 15, `GetAffectedTeats` returns
exactly the subset of the four teat positions whose bit is set — left-front
for bit 1, right-front for bit 2, left-rear for bit 4, right-rear for bit 8 —
always evaluated and listed in that fixed order; and `GetAffectedTeatsString`
renders the empty subset (bitfield 0) as the literal string `"none"` and every
non-empty subset as the comma-joined category names. -/
theorem c6_teat_decode :
    (∀ b : Nat, b < 16 → GetAffectedTeats ((b : Nat) : Int) = decodeTeatsSpec b) ∧
    GetAffectedTeatsString 0 = "none" ∧
    (∀ b : Nat, b < 16 → GetAffectedTeats ((b : Nat) : Int) ≠ [] →
      GetAffectedTeatsString ((b : Nat) : Int) =
        String.intercalate "," (GetAffectedTeats ((b : Nat) : Int))) := by
  refine ⟨by decide, by decide, by decide⟩

/-- C6 witness: the theorem applied at the concrete bitfield 5
(left-front and left-rear set). -/
theorem c6_teat_decode_witness :
    GetAffectedTeats ((5 : Nat) : Int) = decodeTeatsSpec 5 ∧
    GetAffectedTeatsString ((5 : Nat) : Int) =
      String.intercalate "," (GetAffectedTeats ((5 : Nat) : Int)) :=
  ⟨c6_teat_decode.1 5 (by decide), c6_teat_decode.2.2 5 (by decide) (by decide)⟩

/-- C1: evaluating the engine at the failing input.  A record whose nil
`Conductivity` pointer is dereferenced unconditionally makes
`CreateMetricsFromRecords` panic (modelled as `none`) instead of skipping the
conductivity gauge, while a record with nil `SomaticCellCount` and nil
`DaysInLactation` (but the four dereferenced fields present) is processed
without panic, those steps being skipped behind their nil guards. -/
theorem c1_nil_optional_eval :
    applyRecord emptySet c1Record = none ∧
    CreateMetricsFromRecords emptySet false [c1Record] = none ∧
    (applyRecord emptySet c1RecordB).isSome = true := ⟨rfl, rfl, rfl⟩

/-- C7: the OID-range record filter is exclusive in its lower bound and
inclusive in its upper bound, an `end_oid` of 0 (or absent) means no upper
bound, results are ordered by ascending OID, and over a table holding OIDs 5
through 11 inside the window, the query with `start_oid` 5 and `end_oid` 10
returns exactly the records with OIDs 6 through 10 in ascending order. -/
theorem c7_oid_range_filter :
    (∀ (table : List MilkingRecord) (s e so eo : Int) (r : MilkingRecord),
      r ∈ GetMilkingRecordsWithOIDRange table s e so eo ↔
        (r ∈ table ∧ s ≤ r.EndTime ∧ r.EndTime < e ∧ so < r.OID ∧
          (0 < eo → r.OID ≤ eo))) ∧
    (∀ (table : List MilkingRecord) (s e so eo : Int),
      (GetMilkingRecordsWithOIDRange table s e so eo).Pairwise
        (fun a b => a.OID ≤ b.OID)) ∧
    GetMilkingRecordsWithOIDRange exampleTable 0 1000 5 10 =
      [mkExampleRec 6, mkExampleRec 7, mkExampleRec 8, mkExampleRec 9,
       mkExampleRec 10] := by
  refine ⟨?_, fun table s e so eo => sorted_sortByOID _, by decide⟩
  intro table s e so eo r
  unfold GetMilkingRecordsWithOIDRange
  rw [mem_sortByOID, List.mem_filter]
  unfold oidRangePred
  simp only [Bool.and_eq_true, decide_eq_true_eq]
  constructor
  · rintro ⟨hmem, ⟨⟨h1, h2⟩, h3⟩, h4⟩
    refine ⟨hmem, h1, h2, h3, ?_⟩
    intro heo
    rw [if_pos heo] at h4
    exact of_decide_eq_true h4
  · rintro ⟨hmem, h1, h2, h3, h4⟩
    refine ⟨hmem, ⟨⟨h1, h2⟩, h3⟩, ?_⟩
    by_cases heo : eo > 0
    · rw [if_pos heo]
      exact decide_eq_true (h4 heo)
    · rw [if_neg heo]

/-- C7 witness: the boundary characterization applied to the record with
OID 7 of the example table. -/
theorem c7_oid_range_filter_witness :
    mkExampleRec 7 ∈ GetMilkingRecordsWithOIDRange exampleTable 0 1000 5 10 :=
  (c7_oid_range_filter.1 exampleTable 0 1000 5 10 (mkExampleRec 7)).mpr
    ⟨by decide, by decide, by decide, by decide, fun _ => by decide⟩

/-- C2: applying the same record to the live registry twice without an
intervening cursor advance exactly doubles every accumulated counter and total
for that record's series (session counter +2, yield-total +2×yield,
somatic-cell-total +2×count, teat gauges +2), whereas the record-processing
part of a live update cycle whose query returns zero new records changes
neither the registry nor the cursor. -/
theorem c2_double_apply_and_empty_cycle :
    (∀ (s : MetricSet) (r : MilkingRecord) (s1 s2 : MetricSet),
      applyRecord s r = some s1 → applyRecord s1 r = some s2 →
      getCounterVal s2 (r.MetricName MetricMilkSessions) =
        getCounterVal s (r.MetricName MetricMilkSessions) + 2 ∧
      getGaugeVal s2 (r.MetricName MetricMilkYieldTotal) =
        getGaugeVal s (r.MetricName MetricMilkYieldTotal) + 2 * r.Yield ∧
      (∀ scc : Int, r.SomaticCellCount = some scc →
        getGaugeVal s2 (r.MetricName MetricSomaticCellTotal) =
          getGaugeVal s (r.MetricName MetricSomaticCellTotal) + 2 * (scc : Rat)) ∧
      (∀ b : Int, r.Incomplete = some b → ∀ t ∈ GetAffectedTeats b,
        getGaugeVal s2 (r.TeatMetricName MetricIncomplete t) =
          getGaugeVal s (r.TeatMetricName MetricIncomplete t) + 2) ∧
      (∀ b : Int, r.Kickoff = some b → ∀ t ∈ GetAffectedTeats b,
        getGaugeVal s2 (r.TeatMetricName MetricKickoff t) =
          getGaugeVal s (r.TeatMetricName MetricKickoff t) + 2)) ∧
    (∀ st : ExporterState, UpdateMetricsRecords [] st = some st) := by
  constructor
  · intro s r s1 s2 h1 h2
    obtain ⟨c, d, inc, kick, hc, hd, hi, hk, hcore1⟩ := applyRecord_inv h1
    obtain ⟨c', d', inc', kick', hc', hd', hi', hk', hcore2⟩ := applyRecord_inv h2
    have ec : c' = c := Option.some.inj (hc'.symm.trans hc)
    have ed : d' = d := Option.some.inj (hd'.symm.trans hd)
    have ei : inc' = inc := Option.some.inj (hi'.symm.trans hi)
    have ek : kick' = kick := Option.some.inj (hk'.symm.trans hk)
    rw [ec, ed, ei, ek] at hcore2
    subst hcore1
    subst hcore2
    refine ⟨?_, ?_, ?_, ?_, ?_⟩
    · rw [getCounterVal_applyRecordCore, getCounterVal_applyRecordCore,
        if_pos rfl, if_pos rfl]
    · rw [applyRecordCore_yieldTotal, applyRecordCore_yieldTotal]
      ring
    · intro scc hscc
      rw [applyRecordCore_sccTotal _ _ _ _ _ _ _ hscc,
        applyRecordCore_sccTotal _ _ _ _ _ _ _ hscc]
      ring
    · intro b hb t ht
      obtain rfl : b = inc := Option.some.inj (hb.symm.trans hi)
      rw [applyRecordCore_incTeat _ _ _ _ _ _ _ ht,
        applyRecordCore_incTeat _ _ _ _ _ _ _ ht]
      ring
    · intro b hb t ht
      obtain rfl : b = kick := Option.some.inj (hb.symm.trans hk)
      rw [applyRecordCore_kickTeat _ _ _ _ _ _ _ ht,
        applyRecordCore_kickTeat _ _ _ _ _ _ _ ht]
      ring
  · intro st
    exact UpdateMetricsRecords_nil st

/-- C2 witness: the double application at a concrete record and the empty
cycle at a concrete state. -/
theorem c2_double_apply_witness :
    ∃ s1 s2, applyRecord emptySet wRec = some s1 ∧ applyRecord s1 wRec = some s2 ∧
      getCounterVal s2 (wRec.MetricName MetricMilkSessions) =
        getCounterVal emptySet (wRec.MetricName MetricMilkSessions) + 2 ∧
      UpdateMetricsRecords [] wSt = some wSt := by
  refine ⟨_, _, rfl, rfl, ?_, ?_⟩
  · exact (c2_double_apply_and_empty_cycle.1 emptySet wRec _ _ rfl rfl).1
  · exact c2_double_apply_and_empty_cycle.2 wSt

/-- C3: across any sequence of live update cycles and `SetLastOID` calls, the
exporter's last-processed OID is non-decreasing; `SetLastOID x` updates and
persists the cursor only when `x` is strictly greater than the current value,
and is a no-op (no in-memory change, no file write) whenever `x ≤ current`. -/
theorem c3_monotonic_cursor :
    (∀ (st : ExporterState) (ops : List ExOp) (st' : ExporterState),
      runOps st ops = some st' → st.lastOID ≤ st'.lastOID) ∧
    (∀ (st : ExporterState) (x : Int), x ≤ st.lastOID → SetLastOID st x = st) ∧
    (∀ (st : ExporterState) (x : Int), st.lastOID < x →
      SetLastOID st x = ⟨x, some x, st.registry⟩) :=
  ⟨fun st ops st' h => runOps_mono ops st st' h,
   fun _ _ h => SetLastOID_noop h,
   fun _ _ h => SetLastOID_gt h⟩

/-- C3 witness: a concrete operation sequence, a no-op call and an advancing
call. -/
theorem c3_monotonic_cursor_witness :
    wSt.lastOID ≤ (⟨5, some 5, emptySet⟩ : ExporterState).lastOID ∧
    SetLastOID wSt (-1) = wSt ∧
    SetLastOID wSt 5 = ⟨5, some 5, emptySet⟩ :=
  ⟨c3_monotonic_cursor.1 wSt [ExOp.setOID 5] ⟨5, some 5, emptySet⟩ rfl,
   c3_monotonic_cursor.2.1 wSt (-1) (by decide),
   c3_monotonic_cursor.2.2 wSt 5 (by decide)⟩

/-- C4: for every historical export containing at least one record, the output
stream is the initialization block followed by the replay; the initialization
block holds, once per entity (distinct label key, as `writeInitializationValues`
groups by `LabelStr`), synthetic zero-valued points for the session counter,
the yield-total, the somatic-cell-total and a zero histogram sum/count pair,
each timestamped exactly 10 minutes (600000 ms) before that entity's earliest
record `EndTime`. -/
theorem c4_initialization_values :
    ∀ rs : List MilkingRecord, rs ≠ [] → (∀ r ∈ rs, r.Valid) →
      (∃ replay, WriteHistoricalMetricsWithInit rs =
          some (writeInitializationValues rs ++ replay)) ∧
      writeInitializationValues rs =
        ((seenAnimals rs).map (fun p => initLinesFor p.2)).flatten ∧
      (∀ e : MilkingRecord, initLinesFor e =
        [e.MetricName MetricMilkSessions ++ " 0 " ++ toString (e.EndTime - 600000),
         e.MetricName MetricMilkYieldTotal ++ " 0 " ++ toString (e.EndTime - 600000),
         e.MetricName MetricSomaticCellTotal ++ " 0 " ++ toString (e.EndTime - 600000)] ++
        writeZeroHistogram (e.MetricName MetricMilkingDuration) (e.EndTime - 600000)) ∧
      ((seenAnimals rs).map Prod.fst).Nodup ∧
      (∀ k, (match alookup (seenAnimals rs) k with
             | none => ∀ r ∈ rs, r.LabelStr ≠ k
             | some e => e ∈ rs ∧ e.LabelStr = k ∧
                 ∀ r' ∈ rs, r'.LabelStr = k → e.EndTime ≤ r'.EndTime)) := by
  intro rs hne hv
  obtain ⟨out, hout⟩ := WriteHistoricalMetrics_some hv
  have hempty : rs.isEmpty = false := by
    cases rs with
    | nil => exact absurd rfl hne
    | cons _ _ => rfl
  refine ⟨⟨out, ?_⟩, ?_, fun e => rfl, (seenAnimals_spec rs).1, (seenAnimals_spec rs).2⟩
  · unfold WriteHistoricalMetricsWithInit
    rw [hout]
  · unfold writeInitializationValues
    rw [hempty]
    rfl

/-- C4 witness: the theorem applied to a concrete one-record export. -/
theorem c4_initialization_values_witness :
    (∃ replay, WriteHistoricalMetricsWithInit [wRec] =
        some (writeInitializationValues [wRec] ++ replay)) ∧
    ((seenAnimals [wRec]).map Prod.fst).Nodup := by
  have h := c4_initialization_values [wRec] (by simp) (by decide)
  exact ⟨h.1, h.2.2.2.1⟩

/-- C5: historical replay partitions records by animal registration number and
processes each partition against a fresh metric set: the partition of entity
`a` is unaffected by appending records of other entities, a partition's
content is exactly the records of that entity in order, and the replayed
cumulative yield-total for an entity whose records carry label key `ℓ` equals
the sum of that entity's own yields. -/
theorem c5_partition_isolation :
    ∀ (rs extra : List MilkingRecord) (a ℓ : String),
      (∀ r ∈ rs, r.Valid) →
      (∀ r ∈ rs, r.AnimalRegNo = a → r.LabelStr = ℓ) →
      (∀ r ∈ extra, r.AnimalRegNo ≠ a) →
      alookup (groupByRegNo (rs ++ extra)) a = alookup (groupByRegNo rs) a ∧
      (∀ l, alookup (groupByRegNo rs) a = some l →
        l = rs.filter (fun r => r.AnimalRegNo == a)) ∧
      (∃ sf out, CreateMetricsFromRecords emptySet true
          (rs.filter (fun r => r.AnimalRegNo == a)) = some (sf, out) ∧
        getGaugeVal sf (mkKey MetricMilkYieldTotal ℓ) =
          ((rs.filter (fun r => r.AnimalRegNo == a)).map MilkingRecord.Yield).sum) := by
  intro rs extra a ℓ hv hl hx
  have hfe : extra.filter (fun r => r.AnimalRegNo == a) = [] := by
    rw [List.filter_eq_nil_iff]
    intro r hr
    simp only [beq_iff_eq]
    exact hx r hr
  refine ⟨?_, ?_, ?_⟩
  · unfold groupByRegNo
    rw [List.foldl_append]
    rw [group_lookup extra (List.foldl addToGroup [] rs) a, hfe]
    cases hacc : alookup (List.foldl addToGroup [] rs) a with
    | none => simp
    | some l => simp
  · intro l hsome
    unfold groupByRegNo at hsome
    rw [group_lookup rs [] a] at hsome
    dsimp only [alookup] at hsome
    by_cases hf : (rs.filter (fun r => r.AnimalRegNo == a)).isEmpty
    · rw [if_pos hf] at hsome
      cases hsome
    · rw [if_neg hf] at hsome
      exact (Option.some.inj hsome).symm
  · have hvl : ∀ r ∈ rs.filter (fun r => r.AnimalRegNo == a), r.Valid ∧ r.LabelStr = ℓ := by
      intro r hr
      obtain ⟨hmem, hpa⟩ := List.mem_filter.mp hr
      exact ⟨hv r hmem, hl r hmem (by simpa using hpa)⟩
    obtain ⟨sf, out, h1, h2⟩ := CMFR_yieldTotal (rs.filter (fun r => r.AnimalRegNo == a))
      ℓ emptySet true hvl
    refine ⟨sf, out, h1, ?_⟩
    rw [h2]
    simp [getGaugeVal, emptySet, alookup]

/-- C5 witness: two concrete entities with disjoint label keys. -/
theorem c5_partition_isolation_witness :
    alookup (groupByRegNo ([wRec] ++ [wRecB])) "R1" =
      alookup (groupByRegNo [wRec]) "R1" ∧
    (∃ sf out, CreateMetricsFromRecords emptySet true
        ([wRec].filter (fun r => r.AnimalRegNo == "R1")) = some (sf, out) ∧
      getGaugeVal sf (mkKey MetricMilkYieldTotal wRec.LabelStr) =
        (([wRec].filter (fun r => r.AnimalRegNo == "R1")).map MilkingRecord.Yield).sum) := by
  have h := c5_partition_isolation [wRec] [wRecB] "R1" wRec.LabelStr
    (by decide) (by decide) (by decide)
  exact ⟨h.1, h.2.2⟩

/-- C9: in historical mode the output stream decomposes into one chunk per
record, and every exposition line of record i's chunk is suffixed with that
record's `EndTime` in epoch milliseconds — the same single timestamp for every
line of the chunk, never the request's wall-clock time. -/
theorem c9_per_record_timestamps :
    ∀ (s sf : MetricSet) (rs : List MilkingRecord) (out : List String),
      CreateMetricsFromRecords s true rs = some (sf, out) →
      ∃ chunks : List (List String),
        out = chunks.flatten ∧ chunks.length = rs.length ∧
        ∀ i (h1 : i < chunks.length) (h2 : i < rs.length), ∀ line ∈ chunks.get ⟨i, h1⟩,
          ∃ b, line = b ++ " " ++ toString (rs.get ⟨i, h2⟩).EndTime := by
  intro s sf rs out h
  obtain ⟨chunks, h1, h2, h3, _, _⟩ := CMFR_chunk_structure rs s sf out h
  exact ⟨chunks, h1, h2, h3⟩

/-- C9 witness: the decomposition at a concrete one-record stream. -/
theorem c9_per_record_timestamps_witness :
    ∃ sf out chunks, CreateMetricsFromRecords emptySet true [wRec] = some (sf, out) ∧
      out = List.flatten chunks ∧ chunks.length = 1 := by
  obtain ⟨chunks, h1, h2, _⟩ := c9_per_record_timestamps emptySet _ [wRec] _ rfl
  exact ⟨_, _, chunks, rfl, h1, h2⟩

/-- C10: after each record the engine serializes the entire per-partition
metric set, so for all j ≤ i the session-counter series of record j appears
again in record i's chunk (at record i's timestamp). -/
theorem c10_full_set_reemission :
    ∀ (s sf : MetricSet) (rs : List MilkingRecord) (out : List String),
      CreateMetricsFromRecords s true rs = some (sf, out) →
      ∃ chunks : List (List String),
        out = chunks.flatten ∧ chunks.length = rs.length ∧
        ∀ j (h3 : j < rs.length) (i : Nat) (h1 : i < chunks.length), j ≤ i →
          ∃ rest, ((rs.get ⟨j, h3⟩).MetricName MetricMilkSessions ++ " " ++ rest) ∈
            chunks.get ⟨i, h1⟩ := by
  intro s sf rs out h
  obtain ⟨chunks, h1, h2, _, _, h5⟩ := CMFR_chunk_structure rs s sf out h
  exact ⟨chunks, h1, h2, h5⟩

/-- C10 witness: with two records of the same partition, the first record's
session series appears in the second record's chunk. -/
theorem c10_full_set_reemission_witness :
    ∃ sf out chunks, ∃ hlen : chunks.length = 2,
      CreateMetricsFromRecords emptySet true [wRec, wRecB] = some (sf, out) ∧
      out = List.flatten chunks ∧
      ∃ rest, (wRec.MetricName MetricMilkSessions ++ " " ++ rest) ∈
        chunks.get ⟨1, by omega⟩ := by
  obtain ⟨chunks, h1, h2, h3⟩ := c10_full_set_reemission emptySet _ [wRec, wRecB] _ rfl
  have hlen : chunks.length = 2 := h2
  obtain ⟨rest, hrest⟩ := h3 0 (by decide) 1 (by omega) (by omega)
  exact ⟨_, _, chunks, hlen, rfl, h1, rest, hrest⟩

/-- C8 counterexample: the claim requires HTTP 400 whenever the time bounds do
not satisfy start < end, but a request whose start equals its end is accepted:
the handler answers 200 with an empty body rather than a client error. -/
theorem c8_start_eq_end_not_rejected :
    writeHistoricalMetricsHandler 0 cexQuery [] wSt =
      some (HandlerOutcome.ok [] none, wSt) := rfl

/-- C8 (amended): for every request with an unparseable time bound, or
resolvable time bounds with start strictly after end, or — only when
`start_oid` is present — an unparseable OID parameter or both OIDs resolved
with a positive `end_oid` smaller than `start_oid`, the handler returns HTTP
400 with a non-empty plain-text reason, leaves the exporter state untouched,
and emits no metric lines (start = end is accepted, and `end_oid` is ignored
when `start_oid` is absent). -/
theorem c8_amended_bad_request :
    ∀ (now : TimeMs) (q : HQuery) (table : List MilkingRecord) (st : ExporterState),
      BadRequest now q →
      ∃ msg, msg ≠ "" ∧
        writeHistoricalMetricsHandler now q table st = some (.clientError msg, st) := by
  intro now q table st hbad
  have dispatch : ∀ {m : String}, m ≠ "" → parseTimeRangeWithLocation now q = .error m →
      ∃ msg, msg ≠ "" ∧
        writeHistoricalMetricsHandler now q table st = some (.clientError msg, st) := by
    intro m hm ht
    cases hso : q.startOid with
    | none => exact ⟨m, hm, handler_of_parseTime_error_noOid hso ht⟩
    | some p =>
      cases hpo : parseOIDRange q with
      | error m2 => exact ⟨m2, parseOIDRange_error_msg hpo, handler_of_parseOID_error hso hpo⟩
      | ok pr => exact ⟨m, hm, handler_of_parseTime_error_oid hso hpo ht⟩
  rcases hbad with h | h | h | h
  · exact dispatch (by decide) (parseTime_err1 h)
  · cases hrs : resolveStart now q.start with
    | none => exact dispatch (by decide) (parseTime_err1 hrs)
    | some sT => exact dispatch (by decide) (parseTime_err2 hrs h)
  · obtain ⟨sT, eT, hs, he, hgt⟩ := h
    exact dispatch (by decide) (parseTime_err3 hs he hgt)
  · obtain ⟨hsome, hoid⟩ := h
    obtain ⟨p, hso⟩ := Option.isSome_iff_exists.mp hsome
    rcases hoid with h1 | h1 | h1
    · exact ⟨_, by decide, handler_of_parseOID_error hso (parseOID_err1 h1)⟩
    · cases hrso : resolveOid q.startOid with
      | none => exact ⟨_, by decide, handler_of_parseOID_error hso (parseOID_err1 hrso)⟩
      | some so => exact ⟨_, by decide, handler_of_parseOID_error hso (parseOID_err2 hrso h1)⟩
    · obtain ⟨so, eo, hs, he, h1p, h2p⟩ := h1
      exact ⟨_, by decide, handler_of_parseOID_error hso (parseOID_err3 hs he h1p h2p)⟩

/-- C8 witness: the amended theorem applied to a request with an unparseable
`start` parameter. -/
theorem c8_amended_bad_request_witness :
    ∃ msg, msg ≠ "" ∧
      writeHistoricalMetricsHandler 0 badStartQuery [] wSt =
        some (.clientError msg, wSt) :=
  c8_amended_bad_request 0 badStartQuery [] wSt (Or.inl rfl)
